import Mathlib

/-!
Verification of the EAMSA 512 repository against its specification.

The development shallowly embeds the Go sources as executable Lean
definitions over byte lists (a byte is a `Nat` kept below 256) and proves
or refutes the specified properties.  The SHA3 primitives used by the Go
code via `crypto/sha3` are embedded as a plain FIPS 202 Keccak sponge,
validated below against the published FIPS 202 test digests.
-/

set_option maxRecDepth 8000

namespace EAMSA

/-! ## FIPS 202 Keccak / SHA3 primitives (the `crypto/sha3` dependency)

The 5×5 lane state is a flat 25-field structure (lane `(x, y)` is field
`x + 5*y`); this keeps kernel evaluation of digests cheap. -/

/-- Lane width modulus: Keccak lanes are 64-bit words. -/
def w64 : Nat := 2 ^ 64

/-- Rotate a 64-bit lane left by `n` bits (`0 ≤ n < 64`). -/
def rotl64 (x n : Nat) : Nat :=
  ((x <<< n) % w64) ||| (x >>> (64 - n))

/-- The Keccak state: 25 lanes of 64 bits, lane `(x, y)` in field `x + 5*y`. -/
structure KState where
  y0x0 : Nat
  y0x1 : Nat
  y0x2 : Nat
  y0x3 : Nat
  y0x4 : Nat
  y1x0 : Nat
  y1x1 : Nat
  y1x2 : Nat
  y1x3 : Nat
  y1x4 : Nat
  y2x0 : Nat
  y2x1 : Nat
  y2x2 : Nat
  y2x3 : Nat
  y2x4 : Nat
  y3x0 : Nat
  y3x1 : Nat
  y3x2 : Nat
  y3x3 : Nat
  y3x4 : Nat
  y4x0 : Nat
  y4x1 : Nat
  y4x2 : Nat
  y4x3 : Nat
  y4x4 : Nat

/-- Build a state from a lane-index valuation. -/
def mkState (f : Nat → Nat) : KState :=
  ⟨f 0, f 1, f 2, f 3, f 4, f 5, f 6, f 7, f 8, f 9, f 10, f 11, f 12,
   f 13, f 14, f 15, f 16, f 17, f 18, f 19, f 20, f 21, f 22, f 23, f 24⟩

/-- Read lane `i = x + 5*y` of the state. -/
def getLane (A : KState) : Nat → Nat
  | 0 => A.y0x0
  | 1 => A.y0x1
  | 2 => A.y0x2
  | 3 => A.y0x3
  | 4 => A.y0x4
  | 5 => A.y1x0
  | 6 => A.y1x1
  | 7 => A.y1x2
  | 8 => A.y1x3
  | 9 => A.y1x4
  | 10 => A.y2x0
  | 11 => A.y2x1
  | 12 => A.y2x2
  | 13 => A.y2x3
  | 14 => A.y2x4
  | 15 => A.y3x0
  | 16 => A.y3x1
  | 17 => A.y3x2
  | 18 => A.y3x3
  | 19 => A.y3x4
  | 20 => A.y4x0
  | 21 => A.y4x1
  | 22 => A.y4x2
  | 23 => A.y4x3
  | 24 => A.y4x4
  | _ + 25 => 0

/-- Keccak-f[1600] round constants. -/
def keccakRC : List Nat :=
  [1, 32898, 9223372036854808714,
   9223372039002292224, 32907, 2147483649,
   9223372039002292353, 9223372036854808585, 138,
   136, 2147516425, 2147483658,
   2147516555, 9223372036854775947, 9223372036854808713,
   9223372036854808579, 9223372036854808578, 9223372036854775936,
   32778, 9223372039002259466, 9223372039002292353,
   9223372036854808704, 2147483649, 9223372039002292232]

/-- The five column parities of the θ step. -/
structure KRow where
  c0 : Nat
  c1 : Nat
  c2 : Nat
  c3 : Nat
  c4 : Nat

/-- θ: column parities. -/
def kCols (A : KState) : KRow :=
  ⟨A.y0x0 ^^^ A.y1x0 ^^^ A.y2x0 ^^^ A.y3x0 ^^^ A.y4x0,
   A.y0x1 ^^^ A.y1x1 ^^^ A.y2x1 ^^^ A.y3x1 ^^^ A.y4x1,
   A.y0x2 ^^^ A.y1x2 ^^^ A.y2x2 ^^^ A.y3x2 ^^^ A.y4x2,
   A.y0x3 ^^^ A.y1x3 ^^^ A.y2x3 ^^^ A.y3x3 ^^^ A.y4x3,
   A.y0x4 ^^^ A.y1x4 ^^^ A.y2x4 ^^^ A.y3x4 ^^^ A.y4x4⟩

/-- θ: the D row combined from neighbouring column parities. -/
def kD (C : KRow) : KRow :=
  ⟨C.c4 ^^^ rotl64 C.c1 1,
   C.c0 ^^^ rotl64 C.c2 1,
   C.c1 ^^^ rotl64 C.c3 1,
   C.c2 ^^^ rotl64 C.c4 1,
   C.c3 ^^^ rotl64 C.c0 1⟩

/-- θ: XOR the D value of each column into every lane. -/
def kTheta (A : KState) (D : KRow) : KState :=
  ⟨A.y0x0 ^^^ D.c0, A.y0x1 ^^^ D.c1, A.y0x2 ^^^ D.c2, A.y0x3 ^^^ D.c3, A.y0x4 ^^^ D.c4,
   A.y1x0 ^^^ D.c0, A.y1x1 ^^^ D.c1, A.y1x2 ^^^ D.c2, A.y1x3 ^^^ D.c3, A.y1x4 ^^^ D.c4,
   A.y2x0 ^^^ D.c0, A.y2x1 ^^^ D.c1, A.y2x2 ^^^ D.c2, A.y2x3 ^^^ D.c3, A.y2x4 ^^^ D.c4,
   A.y3x0 ^^^ D.c0, A.y3x1 ^^^ D.c1, A.y3x2 ^^^ D.c2, A.y3x3 ^^^ D.c3, A.y3x4 ^^^ D.c4,
   A.y4x0 ^^^ D.c0, A.y4x1 ^^^ D.c1, A.y4x2 ^^^ D.c2, A.y4x3 ^^^ D.c3, A.y4x4 ^^^ D.c4⟩

/-- ρ and π combined: destination lane `(y, 2x + 3y mod 5)` receives the
source lane rotated by its ρ offset (written out as a gather). -/
def kRhoPi (T : KState) : KState :=
  ⟨T.y0x0,
   rotl64 T.y1x1 44,
   rotl64 T.y2x2 43,
   rotl64 T.y3x3 21,
   rotl64 T.y4x4 14,
   rotl64 T.y0x3 28,
   rotl64 T.y1x4 20,
   rotl64 T.y2x0 3,
   rotl64 T.y3x1 45,
   rotl64 T.y4x2 61,
   rotl64 T.y0x1 1,
   rotl64 T.y1x2 6,
   rotl64 T.y2x3 25,
   rotl64 T.y3x4 8,
   rotl64 T.y4x0 18,
   rotl64 T.y0x4 27,
   rotl64 T.y1x0 36,
   rotl64 T.y2x1 10,
   rotl64 T.y3x2 15,
   rotl64 T.y4x3 56,
   rotl64 T.y0x2 62,
   rotl64 T.y1x3 55,
   rotl64 T.y2x4 39,
   rotl64 T.y3x0 41,
   rotl64 T.y4x1 2⟩

/-- χ row-wise; a lane's complement is XOR with the all-ones word. -/
def kChi (B : KState) : KState :=
  ⟨B.y0x0 ^^^ ((B.y0x1 ^^^ (w64 - 1)) &&& B.y0x2),
   B.y0x1 ^^^ ((B.y0x2 ^^^ (w64 - 1)) &&& B.y0x3),
   B.y0x2 ^^^ ((B.y0x3 ^^^ (w64 - 1)) &&& B.y0x4),
   B.y0x3 ^^^ ((B.y0x4 ^^^ (w64 - 1)) &&& B.y0x0),
   B.y0x4 ^^^ ((B.y0x0 ^^^ (w64 - 1)) &&& B.y0x1),
   B.y1x0 ^^^ ((B.y1x1 ^^^ (w64 - 1)) &&& B.y1x2),
   B.y1x1 ^^^ ((B.y1x2 ^^^ (w64 - 1)) &&& B.y1x3),
   B.y1x2 ^^^ ((B.y1x3 ^^^ (w64 - 1)) &&& B.y1x4),
   B.y1x3 ^^^ ((B.y1x4 ^^^ (w64 - 1)) &&& B.y1x0),
   B.y1x4 ^^^ ((B.y1x0 ^^^ (w64 - 1)) &&& B.y1x1),
   B.y2x0 ^^^ ((B.y2x1 ^^^ (w64 - 1)) &&& B.y2x2),
   B.y2x1 ^^^ ((B.y2x2 ^^^ (w64 - 1)) &&& B.y2x3),
   B.y2x2 ^^^ ((B.y2x3 ^^^ (w64 - 1)) &&& B.y2x4),
   B.y2x3 ^^^ ((B.y2x4 ^^^ (w64 - 1)) &&& B.y2x0),
   B.y2x4 ^^^ ((B.y2x0 ^^^ (w64 - 1)) &&& B.y2x1),
   B.y3x0 ^^^ ((B.y3x1 ^^^ (w64 - 1)) &&& B.y3x2),
   B.y3x1 ^^^ ((B.y3x2 ^^^ (w64 - 1)) &&& B.y3x3),
   B.y3x2 ^^^ ((B.y3x3 ^^^ (w64 - 1)) &&& B.y3x4),
   B.y3x3 ^^^ ((B.y3x4 ^^^ (w64 - 1)) &&& B.y3x0),
   B.y3x4 ^^^ ((B.y3x0 ^^^ (w64 - 1)) &&& B.y3x1),
   B.y4x0 ^^^ ((B.y4x1 ^^^ (w64 - 1)) &&& B.y4x2),
   B.y4x1 ^^^ ((B.y4x2 ^^^ (w64 - 1)) &&& B.y4x3),
   B.y4x2 ^^^ ((B.y4x3 ^^^ (w64 - 1)) &&& B.y4x4),
   B.y4x3 ^^^ ((B.y4x4 ^^^ (w64 - 1)) &&& B.y4x0),
   B.y4x4 ^^^ ((B.y4x0 ^^^ (w64 - 1)) &&& B.y4x1)⟩

/-- One Keccak-f[1600] round: θ, ρ, π, χ, then ι with round constant `rc`. -/
def keccakRound (A : KState) (rc : Nat) : KState :=
  let B := kChi (kRhoPi (kTheta A (kD (kCols A))))
  ⟨B.y0x0 ^^^ rc, B.y0x1, B.y0x2, B.y0x3, B.y0x4,
   B.y1x0, B.y1x1, B.y1x2, B.y1x3, B.y1x4,
   B.y2x0, B.y2x1, B.y2x2, B.y2x3, B.y2x4,
   B.y3x0, B.y3x1, B.y3x2, B.y3x3, B.y3x4,
   B.y4x0, B.y4x1, B.y4x2, B.y4x3, B.y4x4⟩

/-- The Keccak-f[1600] permutation: 24 rounds. -/
def keccakP (A : KState) : KState :=
  keccakRC.foldl keccakRound A

/-- Little-endian interpretation of up to 8 bytes as one lane. -/
def laneFromBytes (bs : List Nat) : Nat :=
  bs.foldr (fun b acc => acc * 256 + b) 0

/-- XOR a `rate`-byte block into the state and permute. -/
def absorbBlock (st : KState) (block : List Nat) : KState :=
  keccakP (mkState (fun i => getLane st i ^^^ laneFromBytes ((block.drop (8 * i)).take 8)))

/-- SHA3 domain padding (`0x06 0x00 … 0x80`, or the single byte `0x86`). -/
def sha3Pad (rate : Nat) (msg : List Nat) : List Nat :=
  let padLen := rate - msg.length % rate
  if padLen = 1 then msg ++ [0x86]
  else msg ++ [0x06] ++ List.replicate (padLen - 2) 0 ++ [0x80]

/-- Absorb a whole message at the given byte rate, from the all-zero state. -/
def spongeAbsorb (rate : Nat) (msg : List Nat) : KState :=
  let padded := sha3Pad rate msg
  (List.range (padded.length / rate)).foldl
    (fun st b => absorbBlock st ((padded.drop (b * rate)).take rate))
    (mkState (fun _ => 0))

/-- Read the first `outLen` bytes of the state (little-endian lanes). -/
def squeezeBytes (st : KState) (outLen : Nat) : List Nat :=
  (List.range outLen).map (fun i => (getLane st (i / 8) >>> (8 * (i % 8))) % 256)

/-- SHA3-512: rate 72 bytes, 64-byte digest. -/
def sha3_512 (msg : List Nat) : List Nat :=
  squeezeBytes (spongeAbsorb 72 msg) 64

/-- SHA3-256: rate 136 bytes, 32-byte digest. -/
def sha3_256 (msg : List Nat) : List Nat :=
  squeezeBytes (spongeAbsorb 136 msg) 32

/-! ## Core cipher (basic-encryption file): constants and key derivation

Errors are modeled as one inductive with a constructor per distinct
`fmt.Errorf` site reached by the embedded operations; a Go slice
out-of-range panic is modeled by `sliceBounds`. -/

inductive GoErr where
  | invalidMasterKeySize
  | invalidNonceSize
  | dataTooShort
  | authTagVerificationFailed
  | decryptedPlaintextEmpty
  | invalidPadding (n : Nat)
  | invalidPaddingBytes
  | sliceBounds
deriving DecidableEq, Repr

instance {ε α : Type} [DecidableEq ε] [DecidableEq α] : DecidableEq (Except ε α)
  | .error e1, .error e2 =>
      if h : e1 = e2 then .isTrue (h ▸ rfl)
      else .isFalse (fun hc => by cases hc; exact h rfl)
  | .error _, .ok _ => .isFalse (fun hc => Except.noConfusion hc)
  | .ok _, .error _ => .isFalse (fun hc => Except.noConfusion hc)
  | .ok a1, .ok a2 =>
      if h : a1 = a2 then .isTrue (h ▸ rfl)
      else .isFalse (fun hc => by cases hc; exact h rfl)

def BlockSize : Nat := 64

def Rounds : Nat := 16

def NonceSize : Nat := 16

def TagSize : Nat := 64

def KeySize : Nat := 32

/-- Decimal digits, most significant first, by repeated division; the
fuel argument (any bound on the digit count, here `n + 1`) only makes
the recursion structural. -/
def decDigitsAux : Nat → Nat → List Nat → List Nat
  | 0, _, acc => acc
  | fuel + 1, n, acc =>
      if n < 10 then (48 + n) :: acc
      else decDigitsAux fuel (n / 10) ((48 + n % 10) :: acc)

/-- Decimal digit bytes of `n`, as produced by Go's `fmt.Sprintf("%d", n)`. -/
def decDigits (n : Nat) : List Nat :=
  decDigitsAux (n + 1) n []

/-- ASCII bytes of `"key_%d"` formatted at `i`. -/
def keyCtx (i : Nat) : List Nat :=
  [107, 101, 121, 95] ++ decDigits i

/-- The `i`-th derived round key: first 16 bytes of
`SHA3-512(masterKey ‖ "key_i")` (body of the `DeriveKeys` loop). -/
def deriveKey (masterKey : List Nat) (i : Nat) : List Nat :=
  (sha3_512 (masterKey ++ keyCtx i)).take 16

/-- `DeriveKeys`: 11 round keys of 16 bytes from a 32-byte master key. -/
def DeriveKeys (masterKey : List Nat) : Except GoErr (List (List Nat)) :=
  if masterKey.length ≠ KeySize then .error .invalidMasterKeySize
  else .ok ((List.range 11).map (deriveKey masterKey))

/-- `DeriveIV`: 64-byte IV = SHA3-512(nonce ‖ key). -/
def DeriveIV (nonce key : List Nat) : List Nat :=
  sha3_512 (nonce ++ key)

/-! ## Core cipher: the block transform -/

/-- The byte-level S-box of `SubstituteBlock`: first byte of SHA3-256 of
the single input byte. -/
def sboxByte (b : Nat) : Nat :=
  (sha3_256 [b]).getD 0 0

/-- `SubstituteBlock`: apply `sboxByte` to every byte. -/
def SubstituteBlock (block : List Nat) : List Nat :=
  block.map sboxByte

/-- `PermuteBlock`: scatter byte `i` to position `(i*5 + 7) mod len`
over an initially zero buffer. -/
def PermuteBlock (block : List Nat) : List Nat :=
  (List.range block.length).foldl
    (fun acc i => acc.set ((i * 5 + 7) % block.length) (block.getD i 0))
    (List.replicate block.length 0)

/-- `ReversePermuteBlock`: position `i` receives the byte at the first
`j` with `(j*5 + 7) mod len = i` (zero when no such `j` exists). -/
def ReversePermuteBlock (block : List Nat) : List Nat :=
  (List.range block.length).map (fun i =>
    match (List.range block.length).find? (fun j => (j * 5 + 7) % block.length == i) with
    | some j => block.getD j 0
    | none => 0)

/-- `ReverseSubstituteBlock` just applies `SubstituteBlock` again
(the source claims the S-box is self-inverse). -/
def ReverseSubstituteBlock (block : List Nat) : List Nat :=
  SubstituteBlock block

/-- `MixBlock`: XOR byte `i` with `key[i mod len(key)]`. -/
def MixBlock (block key : List Nat) : List Nat :=
  (List.range block.length).map (fun i => block.getD i 0 ^^^ key.getD (i % key.length) 0)

/-- Expansion of a 16-byte round key to the 64-byte block size
(`expandedKey[i] = roundKey[i mod len(roundKey)]`). -/
def expandKey (roundKey : List Nat) : List Nat :=
  (List.range BlockSize).map (fun i => roundKey.getD (i % roundKey.length) 0)

/-- `EncryptBlock`: 16 rounds of substitute/permute/mix, then a final
whitening XOR with the last round key (callers pass 64-byte blocks). -/
def EncryptBlock (block : List Nat) (keys : List (List Nat)) : List Nat :=
  let afterRounds := (List.range Rounds).foldl
    (fun c round =>
      MixBlock (PermuteBlock (SubstituteBlock c))
        (expandKey (keys.getD (round % keys.length) []))) block
  let lastExp := expandKey (keys.getD (keys.length - 1) [])
  (List.range BlockSize).map (fun i => afterRounds.getD i 0 ^^^ lastExp.getD i 0)

/-- `DecryptBlock`: undo the whitening, then 16 rounds of
mix / reverse-permute / reverse-substitute in reverse round order. -/
def DecryptBlock (ciphertext : List Nat) (keys : List (List Nat)) : List Nat :=
  let lastExp := expandKey (keys.getD (keys.length - 1) [])
  let start := (List.range BlockSize).map (fun i => ciphertext.getD i 0 ^^^ lastExp.getD i 0)
  (List.range Rounds).reverse.foldl
    (fun p round =>
      ReverseSubstituteBlock (ReversePermuteBlock
        (MixBlock p (expandKey (keys.getD (round % keys.length) []))))) start

/-! ## Core cipher: HMAC-SHA3-512 -/

/-- `ComputeHMAC`: the standard HMAC construction over SHA3-512 with
block size 136 and pad bytes 0x36/0x5C. -/
def ComputeHMAC (key data : List Nat) : List Nat :=
  let blockSize := 136
  let expandedKey :=
    if key.length ≤ blockSize then key ++ List.replicate (blockSize - key.length) 0
    else sha3_512 key ++ List.replicate (blockSize - 64) 0
  let ipad := expandedKey.map (fun b => b ^^^ 0x36)
  let opad := expandedKey.map (fun b => b ^^^ 0x5c)
  let innerDigest := sha3_512 (ipad ++ data)
  sha3_512 (opad ++ innerDigest)

/-- `VerifyHMAC`: recompute and compare by OR-accumulating byte XORs. -/
def VerifyHMAC (key data tag : List Nat) : Bool :=
  let computed := ComputeHMAC key data
  if computed.length = tag.length then
    ((List.zipWith (fun a b => a ^^^ b) computed tag).foldl (fun r x => r ||| x) 0) == 0
  else false

/-! ## Core cipher: CBC mode and the public encrypt/decrypt API -/

/-- The CBC encryption loop of `EncryptData` over a padded buffer whose
length is a multiple of 64; carries (output so far, previous block). -/
def cbcEncrypt (keys : List (List Nat)) (iv padded : List Nat) : List Nat :=
  ((List.range (padded.length / BlockSize)).foldl
    (fun (acc : List Nat × List Nat) bi =>
      let block := (padded.drop (bi * BlockSize)).take BlockSize
      let xored := (List.range BlockSize).map (fun j => block.getD j 0 ^^^ acc.2.getD j 0)
      let enc := EncryptBlock xored keys
      (acc.1 ++ enc, enc))
    ([], iv)).1

/-- The CBC decryption loop of `DecryptData`; the previous-block value
starts at the IV and is replaced by each ciphertext block. -/
def cbcDecrypt (keys : List (List Nat)) (iv ciphertext : List Nat) : List Nat :=
  ((List.range (ciphertext.length / BlockSize)).foldl
    (fun (acc : List Nat × List Nat) bi =>
      let encryptedBlock := (ciphertext.drop (bi * BlockSize)).take BlockSize
      let dec := DecryptBlock encryptedBlock keys
      let p := (List.range BlockSize).map (fun j => dec.getD j 0 ^^^ acc.2.getD j 0)
      (acc.1 ++ p, encryptedBlock))
    ([], iv)).1

/-- `EncryptData` with a caller-supplied nonce (the `nonce == nil`
branch draws fresh entropy and is outside this deterministic embedding).
Returns `ciphertext ‖ nonce ‖ tag`. -/
def EncryptData (plaintext masterKey nonce : List Nat) : Except GoErr (List Nat) :=
  if masterKey.length ≠ KeySize then .error .invalidMasterKeySize
  else
    (DeriveKeys masterKey).bind (fun keys =>
      if nonce.length ≠ NonceSize then .error .invalidNonceSize
      else
        let iv := DeriveIV nonce masterKey
        let paddedLength := ((plaintext.length + BlockSize - 1) / BlockSize) * BlockSize
        let paddingLength := paddedLength - plaintext.length
        let padded := plaintext ++ List.replicate paddingLength (paddingLength % 256)
        let ciphertext := cbcEncrypt keys iv padded
        let authKey := keys.getD (keys.length - 1) []
        let tag := ComputeHMAC authKey (nonce ++ ciphertext)
        .ok (ciphertext ++ nonce ++ tag))

/-- The final section of `DecryptData`: the emptiness check and PKCS#7
padding validation and removal. -/
def stripPadding (plaintext : List Nat) : Except GoErr (List Nat) :=
  if plaintext.length = 0 then .error .decryptedPlaintextEmpty
  else
    let paddingLength := plaintext.getLast?.getD 0
    if paddingLength > BlockSize ∨ paddingLength = 0 then
      .error (.invalidPadding paddingLength)
    else if ¬ ((List.range paddingLength).all (fun k =>
        plaintext.getD (plaintext.length - paddingLength + k) 0 == paddingLength)) then
      .error .invalidPaddingBytes
    else .ok (plaintext.take (plaintext.length - paddingLength))

/-- `DecryptData` on a frame `ciphertext ‖ nonce ‖ tag`.  The Go loop
reads `ciphertext[i:i+64]`, which panics on a trailing partial block;
that panic is modeled as `.error .sliceBounds`. -/
def DecryptData (encryptedData masterKey : List Nat) : Except GoErr (List Nat) :=
  if masterKey.length ≠ KeySize then .error .invalidMasterKeySize
  else if encryptedData.length < NonceSize + TagSize then .error .dataTooShort
  else
    let ciphertextLength := encryptedData.length - NonceSize - TagSize
    let ciphertext := encryptedData.take ciphertextLength
    let nonce := (encryptedData.drop ciphertextLength).take NonceSize
    let receivedTag := encryptedData.drop (ciphertextLength + NonceSize)
    (DeriveKeys masterKey).bind (fun keys =>
      let authKey := keys.getD (keys.length - 1) []
      let tagData := nonce ++ ciphertext
      if ¬ VerifyHMAC authKey tagData receivedTag then .error .authTagVerificationFailed
      else if ciphertextLength % BlockSize ≠ 0 then .error .sliceBounds
      else stripPadding (cbcDecrypt keys (DeriveIV nonce masterKey) ciphertext))

/-! ## NIST SP 800-56A KDF (kdf-compliance file) -/

/-- `DeriveKeysNISTSP80056A`: key `i` is the first 16 bytes of
`SHA3-512(be32(counter + i + 1) ‖ masterKey ‖ nonce ‖ sharedSecret)`;
the 32-bit counter addition wraps. -/
def DeriveKeysNISTSP80056A (masterKey nonce sharedSecret : List Nat) (counter : Nat) :
    List (List Nat) :=
  (List.range 11).map (fun keyIndex =>
    let currentCounter := (counter + (keyIndex + 1)) % 2 ^ 32
    let kdfInput :=
      [(currentCounter >>> 24) &&& 0xFF, (currentCounter >>> 16) &&& 0xFF,
       (currentCounter >>> 8) &&& 0xFF, currentCounter &&& 0xFF] ++
      masterKey ++ nonce ++ sharedSecret
    (sha3_512 kdfInput).take 16)

/-! ## Definitions following the specification's words (for comparison
against the embedded source) -/

/-- Big-endian 4-byte encoding of a 32-bit counter, as the spec words it. -/
def be32 (n : Nat) : List Nat :=
  [(n >>> 24) % 256, (n >>> 16) % 256, (n >>> 8) % 256, n % 256]

/-- Modelled from the spec: subkey `i` is the first 16 bytes of
`SHA3-512(counter_be32(i+1) ‖ master_key ‖ nonce ‖ shared_secret?)`. -/
def specSubkey (masterKey nonce sharedSecret : List Nat) (i : Nat) : List Nat :=
  (sha3_512 (be32 (i + 1) ++ masterKey ++ nonce ++ sharedSecret)).take 16

/-- Modelled from the spec: the 32-byte auth key
`SHA3-512("AUTH" ‖ master_key ‖ nonce)[0..32]` that the claimed tag uses. -/
def specAuthKey (masterKey nonce : List Nat) : List Nat :=
  (sha3_512 ([65, 85, 84, 72] ++ masterKey ++ nonce)).take 32

/-! ## The fixed S-box tables (S-boxes and P-layer file)

Each Go `[256]byte` literal lists only its leading bytes (16 for the
first box, 8 for the others); Go zero-fills the remaining entries. -/

def sboxTable1 : List Nat :=
  [0xd7, 0xaa, 0x74, 0xd8, 0x62, 0xb1, 0x72, 0x50,
   0xa8, 0xfb, 0xc0, 0x54, 0x3d, 0x6b, 0x88, 0x47] ++ List.replicate 240 0

def sboxTable2 : List Nat :=
  [0x63, 0x7c, 0x77, 0x7b, 0xf2, 0x6b, 0x6f, 0xc5] ++ List.replicate 248 0

def sboxTable3 : List Nat :=
  [0x52, 0x09, 0x6a, 0xd5, 0x30, 0x36, 0xa5, 0x38] ++ List.replicate 248 0

def sboxTable4 : List Nat :=
  [0xbf, 0x40, 0xa3, 0x9e, 0x81, 0xf3, 0xd7, 0xfb] ++ List.replicate 248 0

def sboxTable5 : List Nat :=
  [0x7e, 0xfe, 0xde, 0xdc, 0xb2, 0xb6, 0xd4, 0xe8] ++ List.replicate 248 0

def sboxTable6 : List Nat :=
  [0x85, 0x57, 0x13, 0x23, 0x94, 0x20, 0x14, 0x02] ++ List.replicate 248 0

def sboxTable7 : List Nat :=
  [0xa1, 0x48, 0x69, 0xd9, 0xf4, 0x2a, 0x6c, 0x54] ++ List.replicate 248 0

def sboxTable8 : List Nat :=
  [0x73, 0x62, 0x97, 0x23, 0xcb, 0x61, 0x97, 0x67] ++ List.replicate 248 0

/-- `SBoxTable`: the eight 256-entry boxes. -/
def SBoxTable : List (List Nat) :=
  [sboxTable1, sboxTable2, sboxTable3, sboxTable4,
   sboxTable5, sboxTable6, sboxTable7, sboxTable8]

/-- A box is a bijective permutation of byte values iff every value in
`[0,256)` appears exactly once among its entries. -/
def boxBijective (box : List Nat) : Prop :=
  ∀ v, v < 256 → box.count v = 1

/-! ## Key lifecycle manager (key-rotation file)

Timestamps are modeled in hours as `Nat` (the Go code compares
`time.Since(...).Hours()` against `MinKeyAgeDays*24`).  Audit logging,
the display hash, timestamps and usage counters are not modeled: no
claim depends on them.  Go's `map` iteration order is unspecified, so
`archiveOldKeys` takes the iteration order as an explicit argument. -/

inductive KeyState where
  | active
  | pending
  | rotated
  | archived
  | destroyed
deriving DecidableEq, Repr

structure KeyEntry where
  version : Nat
  state : KeyState
  material : List Nat
deriving DecidableEq, Repr

structure KeyRotationPolicy where
  retentionCycles : Nat
  minKeyAgeDays : Nat
  destructionMethod : String
  destructionPasses : Nat
deriving DecidableEq, Repr

structure KeyManager where
  history : List KeyEntry
  currentVersion : Nat
  activeVersion : Option Nat
  lastRotationTime : Nat
  policy : KeyRotationPolicy
deriving DecidableEq, Repr

inductive KMErr where
  | invalidKeySize
  | rotateTooSoon
deriving DecidableEq, Repr

/-- Look up the entry stored under a version number. -/
def lookupVersion (h : List KeyEntry) (v : Nat) : Option KeyEntry :=
  h.find? (fun e => e.version = v)

/-- Update the entry stored under a version number. -/
def setEntry (h : List KeyEntry) (v : Nat) (f : KeyEntry → KeyEntry) : List KeyEntry :=
  h.map (fun e => if e.version = v then f e else e)

/-- Number of entries in state Active or Rotated. -/
def activeRotatedCount (h : List KeyEntry) : Nat :=
  h.countP (fun e => e.state == KeyState.active || e.state == KeyState.rotated)

/-- Number of entries in state Active. -/
def activeCount (h : List KeyEntry) : Nat :=
  h.countP (fun e => e.state == KeyState.active)

/-- `NewKeyManager`: version 1 is created Active with the initial key. -/
def NewKeyManager (initialKey : List Nat) (policy : KeyRotationPolicy) (now : Nat) :
    Except KMErr KeyManager :=
  if initialKey.length ≠ KeySize then .error .invalidKeySize
  else .ok
    { history := [⟨1, KeyState.active, initialKey⟩]
      currentVersion := 1
      activeVersion := some 1
      lastRotationTime := now
      policy := policy }

/-- One iteration of the archival loop: while the remaining quota is
positive, a Rotated entry found under the visited version is archived
(securely erased, after which the Go code drops the buffer:
`Material = nil`). -/
def archiveStep (acc : KeyManager × Nat) (v : Nat) : KeyManager × Nat :=
  if acc.2 = 0 then acc
  else
    match lookupVersion acc.1.history v with
    | some e =>
        if e.state = KeyState.rotated then
          let h2 := setEntry acc.1.history v (fun e' =>
            { e' with state := KeyState.archived, material := [] })
          ({ acc.1 with history := h2 }, acc.2 - 1)
        else acc
    | none => acc

/-- `archiveOldKeys`: when the Active+Rotated count exceeds the
retention limit, walk the history in the given map order archiving
Rotated entries until the excess quota is consumed. -/
def archiveOldKeys (km : KeyManager) (order : List Nat) : KeyManager :=
  let cnt := activeRotatedCount km.history
  if cnt > km.policy.retentionCycles then
    (order.foldl archiveStep (km, cnt - km.policy.retentionCycles)).1
  else km

/-- `RotateKey`: gate on the minimum key age, mark the current Active
entry Rotated, install version `currentVersion + 1` as the new Active
entry, then run the archival sweep. -/
def RotateKey (km : KeyManager) (newKey : List Nat) (now : Nat) (order : List Nat) :
    Except KMErr KeyManager :=
  if newKey.length ≠ KeySize then .error .invalidKeySize
  else if now - km.lastRotationTime < km.policy.minKeyAgeDays * 24 then .error .rotateTooSoon
  else
    let h1 :=
      match km.activeVersion with
      | some v => setEntry km.history v (fun e => { e with state := KeyState.rotated })
      | none => km.history
    let nv := km.currentVersion + 1
    let km1 :=
      { km with
        history := h1 ++ [⟨nv, KeyState.active, newKey⟩]
        currentVersion := nv
        activeVersion := some nv
        lastRotationTime := now }
    .ok (archiveOldKeys km1 order)

/-- The key manager's state-changing operations after initialization
(`RotateKey` runs the archival sweep internally; a failed rotation
leaves the state unchanged). -/
inductive KMOp where
  | rotate (newKey : List Nat) (now : Nat) (order : List Nat)

def kmStep (km : KeyManager) : KMOp → KeyManager
  | .rotate k now order =>
      match RotateKey km k now order with
      | .ok km2 => km2
      | .error _ => km

def kmRun (km : KeyManager) (ops : List KMOp) : KeyManager :=
  ops.foldl kmStep km

/-! ## Secure erase (key-rotation file `securelyEraseKey`, and
`ZeroizeKey` of the key-lifecycle file) -/

/-- ASCII bytes of `"pass_%d_%d"` formatted at a pass index and a
`time.Now().UnixNano()` value. -/
def eraseCtx (pass timeNano : Nat) : List Nat :=
  [112, 97, 115, 115, 95] ++ decDigits pass ++ [95] ++ decDigits timeNano

/-- The byte contents of `entry.Material` when `securelyEraseKey`
releases the buffer (`entry.Material = nil`): zero-overwrite for method
`"zero"`; for `"random"`/`"overwrite"`, each pass XORs a SHA3-256
pattern over the buffer (there is no final zero overwrite); any other
method leaves the buffer untouched.  `times` supplies the per-pass
nanosecond clock readings. -/
def securelyEraseBytes (method : String) (passes : Nat) (times : List Nat)
    (material : List Nat) : List Nat :=
  if method = "zero" then material.map (fun _ => 0)
  else if method = "random" ∨ method = "overwrite" then
    (List.range passes).foldl
      (fun mat pass =>
        let pattern := sha3_256 (eraseCtx pass (times.getD pass 0))
        (List.range mat.length).map (fun i =>
          mat.getD i 0 ^^^ pattern.getD (i % pattern.length) 0))
      material
  else material

/-- `ZeroizeKey` overwrites every byte of the 32-byte key material with
zero (the state bookkeeping around it is not needed by the claims). -/
def ZeroizeKey (keyMaterial : List Nat) : List Nat :=
  keyMaterial.map (fun _ => 0)

/-! ## Table-based mirror of the SHA3 S-box, for concrete evaluation

`sboxTab` lists `sboxByte 0 … sboxByte 255`; the equality is proved
once below, after which concrete block decryptions evaluate without
re-hashing every byte. -/

def sboxTab : List Nat :=
  [93, 39, 10, 227, 152, 59, 90, 82, 4, 139, 167, 150, 145, 204, 71, 184,
   206, 141, 191, 21, 249, 110, 44, 198, 40, 255, 247, 19, 4, 102, 100, 105,
   96, 105, 25, 65, 94, 178, 124, 99, 113, 185, 130, 121, 69, 167, 104, 18,
   249, 103, 177, 27, 180, 134, 12, 143, 209, 118, 118, 54, 192, 239, 102, 216,
   5, 28, 82, 34, 3, 230, 202, 37, 44, 200, 84, 7, 38, 105, 52, 96,
   229, 186, 208, 22, 179, 120, 62, 76, 49, 8, 31, 164, 128, 153, 27, 183,
   116, 128, 176, 38, 76, 66, 160, 159, 90, 191, 243, 124, 62, 27, 142, 18,
   20, 138, 246, 205, 136, 215, 69, 241, 116, 157, 59, 253, 104, 91, 170, 170,
   188, 31, 58, 115, 142, 214, 11, 46, 123, 8, 186, 235, 151, 211, 167, 193,
   84, 234, 30, 172, 221, 114, 58, 246, 154, 201, 62, 249, 196, 75, 253, 155,
   42, 164, 120, 39, 152, 116, 147, 108, 142, 82, 173, 219, 176, 5, 170, 193,
   7, 166, 82, 15, 126, 120, 141, 76, 130, 53, 68, 151, 153, 179, 173, 11,
   241, 25, 49, 196, 199, 190, 22, 136, 197, 62, 200, 205, 103, 161, 150, 73,
   206, 127, 24, 171, 61, 160, 35, 116, 61, 36, 181, 218, 78, 249, 184, 15,
   223, 124, 98, 217, 55, 56, 134, 64, 175, 240, 210, 125, 17, 131, 61, 20,
   208, 209, 235, 93, 249, 86, 69, 27, 52, 104, 73, 137, 26, 25, 75, 68]

/-- Table-lookup version of `sboxByte`. -/
def sboxByteT (b : Nat) : Nat :=
  sboxTab.getD b 0

/-- Table-lookup version of `SubstituteBlock`. -/
def SubstituteBlockT (block : List Nat) : List Nat :=
  block.map sboxByteT

/-- Direct-gather version of `ReversePermuteBlock` for 64-byte blocks:
position `k` receives the byte at `(13k + 37) mod 64`, the unique
preimage of `k` under `j ↦ (5j + 7) mod 64`. -/
def RPermGather (block : List Nat) : List Nat :=
  (List.range 64).map (fun k => block.getD ((13 * k + 37) % 64) 0)

/-- Table-lookup version of `DecryptBlock`. -/
def DecryptBlockT (ciphertext : List Nat) (keys : List (List Nat)) : List Nat :=
  let lastExp := expandKey (keys.getD (keys.length - 1) [])
  let start := (List.range BlockSize).map (fun i => ciphertext.getD i 0 ^^^ lastExp.getD i 0)
  (List.range Rounds).reverse.foldl
    (fun p round =>
      SubstituteBlockT (RPermGather
        (MixBlock p (expandKey (keys.getD (round % keys.length) []))))) start

/-- Table-lookup version of `cbcDecrypt`. -/
def cbcDecryptT (keys : List (List Nat)) (iv ciphertext : List Nat) : List Nat :=
  ((List.range (ciphertext.length / BlockSize)).foldl
    (fun (acc : List Nat × List Nat) bi =>
      let encryptedBlock := (ciphertext.drop (bi * BlockSize)).take BlockSize
      let dec := DecryptBlockT encryptedBlock keys
      let p := (List.range BlockSize).map (fun j => dec.getD j 0 ^^^ acc.2.getD j 0)
      (acc.1 ++ p, encryptedBlock))
    ([], iv)).1

/-! ## Concrete inputs used by witnesses and counterexamples -/

/-- The all-zero 32-byte master key. -/
def K0 : List Nat := List.replicate 32 0

/-- The all-zero 16-byte nonce. -/
def N0 : List Nat := List.replicate 16 0

/-- An all-zero 64-byte ciphertext block. -/
def C0 : List Nat := List.replicate 64 0

/-- A frame whose single ciphertext block is `C0`, carrying the tag the
code itself would compute, so that tag verification succeeds and
decryption reaches padding validation. -/
def frameC0 : List Nat :=
  C0 ++ N0 ++ ComputeHMAC (deriveKey K0 10) (N0 ++ C0)

/-- An 80-byte all-zero frame: empty ciphertext with a wrong tag. -/
def frameZ80 : List Nat := List.replicate 80 0

/-- An 80-byte frame with empty ciphertext and the matching tag. -/
def frameEmptyOk : List Nat :=
  N0 ++ ComputeHMAC (deriveKey K0 10) N0

/-- All bytes of a buffer are below 256. -/
abbrev bytesLt (l : List Nat) : Prop :=
  ∀ b ∈ l, b < 256

/-- How the archival sweep may transform one history entry: untouched,
or (when it was Rotated) archived with its material dropped. -/
def archStep (e e2 : KeyEntry) : Prop :=
  e2 = e ∨ (e.state = KeyState.rotated ∧
    e2 = { e with state := KeyState.archived, material := [] })

/-- The state invariant of the key manager: the active pointer names the
current version, versions never exceed it and are pairwise distinct, and
exactly one entry — the current version's — is Active. -/
def KMInv (km : KeyManager) : Prop :=
  km.activeVersion = some km.currentVersion ∧
  (∀ e ∈ km.history, e.version ≤ km.currentVersion) ∧
  (∀ e ∈ km.history, e.state = KeyState.active → e.version = km.currentVersion) ∧
  activeCount km.history = 1 ∧
  (km.history.map KeyEntry.version).Nodup

/-- A policy with the spec's default retention of 3 cycles and no
minimum-age gate. -/
def polRet3 : KeyRotationPolicy := ⟨3, 0, "zero", 1⟩

/-- A policy with the minimum legal retention of 1 cycle. -/
def polRet1 : KeyRotationPolicy := ⟨1, 0, "random", 3⟩

/-- The all-one 32-byte master key. -/
def K1 : List Nat := List.replicate 32 1

/-! # Theorems -/

/-! ## Basic facts about the SHA3 embedding -/

theorem length_squeezeBytes (st : KState) (n : Nat) :
    (squeezeBytes st n).length = n := by
  simp [squeezeBytes]

theorem length_sha3_512 (msg : List Nat) : (sha3_512 msg).length = 64 :=
  length_squeezeBytes _ _

theorem length_sha3_256 (msg : List Nat) : (sha3_256 msg).length = 32 :=
  length_squeezeBytes _ _

theorem sha3_512_bytes_lt (msg : List Nat) : ∀ b ∈ sha3_512 msg, b < 256 := by
  intro b hb
  simp only [sha3_512, squeezeBytes, List.mem_map] at hb
  obtain ⟨i, -, rfl⟩ := hb
  exact Nat.mod_lt _ (by omega)

theorem sha3_256_bytes_lt (msg : List Nat) : ∀ b ∈ sha3_256 msg, b < 256 := by
  intro b hb
  simp only [sha3_256, squeezeBytes, List.mem_map] at hb
  obtain ⟨i, -, rfl⟩ := hb
  exact Nat.mod_lt _ (by omega)

/-- FIPS 202 known-answer check: SHA3-256 of the empty message. -/
theorem sha3_256_kat_empty :
    sha3_256 [] =
      [0xa7, 0xff, 0xc6, 0xf8, 0xbf, 0x1e, 0xd7, 0x66, 0x51, 0xc1, 0x47, 0x56,
       0xa0, 0x61, 0xd6, 0x62, 0xf5, 0x80, 0xff, 0x4d, 0xe4, 0x3b, 0x49, 0xfa,
       0x82, 0xd8, 0x0a, 0x4b, 0x80, 0xf8, 0x43, 0x4a] := by
  decide

/-- FIPS 202 known-answer check: SHA3-512 of the three-byte message `"abc"`. -/
theorem sha3_512_kat_abc :
    (sha3_512 [0x61, 0x62, 0x63]).take 16 =
      [0xb7, 0x51, 0x85, 0x0b, 0x1a, 0x57, 0x16, 0x8a, 0x56, 0x93, 0xcd, 0x92,
       0x4b, 0x6b, 0x09, 0x6e] := by
  decide

/-! ## List plumbing -/

theorem getD_map_range {α : Type} (f : Nat → α) (n i : Nat) (d : α) (h : i < n) :
    ((List.range n).map f).getD i d = f i := by
  rw [List.getD_eq_getElem?_getD]
  simp [List.getElem?_map, List.getElem?_range, h]

theorem getD_lt_of_forall (l : List Nat) (i : Nat) (h : ∀ x ∈ l, x < 256) :
    l.getD i 0 < 256 := by
  rcases Nat.lt_or_ge i l.length with h' | h'
  · rw [List.getD_eq_getElem?_getD, List.getElem?_eq_getElem h']
    exact h _ (List.getElem_mem h')
  · rw [List.getD_eq_getElem?_getD, List.getElem?_eq_none h']
    simp

/-! ## HMAC facts -/

theorem length_ComputeHMAC (key data : List Nat) : (ComputeHMAC key data).length = 64 :=
  length_sha3_512 _

theorem ComputeHMAC_bytes_lt (key data : List Nat) : ∀ b ∈ ComputeHMAC key data, b < 256 :=
  sha3_512_bytes_lt _

/-- Verifying the tag the code itself computed always succeeds: the
byte-wise XOR accumulator over two equal lists is zero. -/
theorem VerifyHMAC_self (key data : List Nat) :
    VerifyHMAC key data (ComputeHMAC key data) = true := by
  have hrep : ∀ n : Nat, (List.replicate n 0).foldl (fun r x => r ||| x) 0 = 0 := by
    intro n
    induction n with
    | zero => rfl
    | succ n ih => simpa using ih
  simp [VerifyHMAC, hrep]

/-! ## Shape of encryption and of decryption on well-tagged frames -/

/-- Encrypting the empty plaintext: the padded buffer is empty (the code
appends `64·⌈L/64⌉ − L = 0` padding bytes), so the frame is just
`nonce ‖ tag`. -/
theorem EncryptData_empty (K N : List Nat) (hK : K.length = 32) (hN : N.length = 16) :
    EncryptData [] K N = .ok ([] ++ N ++ ComputeHMAC (deriveKey K 10) (N ++ [])) := by
  simp [EncryptData, DeriveKeys, KeySize, NonceSize, BlockSize, hK, hN, cbcEncrypt,
    Except.bind, List.getElem?_map, List.getElem?_range]

/-- Decrypting a frame assembled with the tag the code itself computes:
tag verification succeeds and the result is the stripped CBC decryption. -/
theorem DecryptData_assembled (c n K : List Nat) (hK : K.length = 32)
    (hn : n.length = 16) (hc : c.length % 64 = 0) :
    DecryptData (c ++ n ++ ComputeHMAC (deriveKey K 10) (n ++ c)) K =
      stripPadding (cbcDecrypt ((List.range 11).map (deriveKey K)) (DeriveIV n K) c) := by
  have hT : (ComputeHMAC (deriveKey K 10) (n ++ c)).length = 64 := length_ComputeHMAC _ _
  have hlen : (c ++ n ++ ComputeHMAC (deriveKey K 10) (n ++ c)).length = c.length + 80 := by
    simp [hn, hT]
  have harith : c.length + 80 - NonceSize - TagSize = c.length := by
    simp [NonceSize, TagSize]
  have harith2 : c.length + 80 - NonceSize - TagSize + NonceSize = c.length + NonceSize := by
    rw [harith]
  have htake : (c ++ n ++ ComputeHMAC (deriveKey K 10) (n ++ c)).take c.length = c := by
    simpa using List.take_left c (n ++ ComputeHMAC (deriveKey K 10) (n ++ c))
  have hdropc : (c ++ n ++ ComputeHMAC (deriveKey K 10) (n ++ c)).drop c.length
      = n ++ ComputeHMAC (deriveKey K 10) (n ++ c) := by
    simpa using List.drop_left c (n ++ ComputeHMAC (deriveKey K 10) (n ++ c))
  have hnonce : ((c ++ n ++ ComputeHMAC (deriveKey K 10) (n ++ c)).drop c.length).take NonceSize
      = n := by
    rw [hdropc]
    simpa [NonceSize, hn] using List.take_left n (ComputeHMAC (deriveKey K 10) (n ++ c))
  have hrt : (c ++ n ++ ComputeHMAC (deriveKey K 10) (n ++ c)).drop (c.length + NonceSize)
      = ComputeHMAC (deriveKey K 10) (n ++ c) := by
    rw [← List.drop_drop, hdropc]
    simpa [NonceSize, hn] using List.drop_left n (ComputeHMAC (deriveKey K 10) (n ++ c))
  simp only [DecryptData, DeriveKeys, KeySize, hK, ne_eq, not_true_eq_false, if_false,
    ite_not, reduceIte, hlen]
  rw [if_neg (by simp [NonceSize, TagSize])]
  simp only [harith, harith2, htake, hnonce, hrt, Except.bind, List.length_map,
    List.length_range, List.getElem?_map, List.getElem?_range]
  norm_num
  rw [VerifyHMAC_self]
  simp [BlockSize, hc]

/-! ## Auxiliary length facts for the mode of operation -/

theorem length_EncryptBlock (b : List Nat) (keys : List (List Nat)) :
    (EncryptBlock b keys).length = 64 := by
  simp [EncryptBlock, BlockSize]

/-- The length of the CBC ciphertext: 64 bytes per full input block. -/
theorem length_cbcEncrypt (keys : List (List Nat)) (iv padded : List Nat) :
    (cbcEncrypt keys iv padded).length = 64 * (padded.length / 64) := by
  have h : ∀ (bis : List Nat) (acc : List Nat × List Nat),
      (bis.foldl (fun (acc : List Nat × List Nat) bi =>
        let block := (padded.drop (bi * BlockSize)).take BlockSize
        let xored := (List.range BlockSize).map (fun j => block.getD j 0 ^^^ acc.2.getD j 0)
        let enc := EncryptBlock xored keys
        (acc.1 ++ enc, enc)) acc).1.length = acc.1.length + 64 * bis.length := by
    intro bis
    induction bis with
    | nil => intro acc; simp
    | cons b bs ih =>
        intro acc
        simp only [List.foldl_cons, ih, List.length_append, length_EncryptBlock,
          List.length_cons]
        ring
  have h2 := h (List.range (padded.length / BlockSize)) ([], iv)
  simpa [cbcEncrypt, BlockSize] using h2

/-- The full frame length produced by `EncryptData`:
`64·⌈L/64⌉ + 16 + 64` (note: NOT `64·(⌊L/64⌋ + 1) + 80`). -/
theorem EncryptData_length (P K N : List Nat) (hK : K.length = 32) (hN : N.length = 16) :
    (EncryptData P K N).map List.length = .ok ((P.length + 63) / 64 * 64 + 80) := by
  simp [EncryptData, DeriveKeys, KeySize, NonceSize, BlockSize, hK, hN, Except.bind,
    Except.map, length_cbcEncrypt, length_ComputeHMAC]
  omega

/-! ## C1: the encrypt/decrypt round trip (code bug: it fails on the
empty plaintext, which the repository's own tests require to succeed) -/

/-- C1: for every 32-byte key and 16-byte nonce, decrypting the frame
that `EncryptData` produces for the EMPTY plaintext does not return the
plaintext: the empty plaintext is padded with `64·⌈0/64⌉ − 0 = 0` bytes,
the ciphertext is empty, and `DecryptData` fails with the
empty-plaintext error instead of succeeding with `[]`. -/
theorem C1_roundtrip_fails_on_empty (K N : List Nat)
    (hK : K.length = 32) (hN : N.length = 16) :
    (EncryptData [] K N).bind (fun f => DecryptData f K) =
      .error .decryptedPlaintextEmpty := by
  rw [EncryptData_empty K N hK hN]
  show DecryptData ([] ++ N ++ ComputeHMAC (deriveKey K 10) (N ++ [])) K = _
  rw [DecryptData_assembled [] N K hK hN (by simp)]
  simp [cbcDecrypt, stripPadding]

/-- C1 witness: concrete all-zero key and nonce. -/
theorem C1_roundtrip_fails_on_empty_witness :
    K0.length = 32 ∧ N0.length = 16 ∧
      (EncryptData [] K0 N0).bind (fun f => DecryptData f K0) =
        .error .decryptedPlaintextEmpty :=
  ⟨by decide, by decide, C1_roundtrip_fails_on_empty K0 N0 (by decide) (by decide)⟩

/-! ## C2: PKCS#7 padding (code bug: zero padding bytes are appended
when the length is a multiple of 64; the empty plaintext yields an
empty ciphertext, not one block of pure padding) -/

/-- C2: the empty plaintext encrypts to an 80-byte frame (empty
ciphertext — the claimed behavior is one 64-byte padding block, frame
length 144), and a 64-byte plaintext encrypts to a 144-byte frame
(64-byte ciphertext with zero padding bytes appended — the claimed
behavior is two blocks, frame length 208). -/
theorem C2_padding_skipped_on_multiples (K N : List Nat)
    (hK : K.length = 32) (hN : N.length = 16) :
    (EncryptData [] K N).map List.length = .ok 80 ∧
    (EncryptData (List.replicate 64 0) K N).map List.length = .ok 144 := by
  have h1 := EncryptData_length [] K N hK hN
  have h2 := EncryptData_length (List.replicate 64 0) K N hK hN
  constructor
  · simpa using h1
  · simpa using h2

/-- C2 witness: concrete all-zero key and nonce. -/
theorem C2_padding_skipped_on_multiples_witness :
    K0.length = 32 ∧ N0.length = 16 ∧
      ((EncryptData [] K0 N0).map List.length = .ok 80 ∧
        (EncryptData (List.replicate 64 0) K0 N0).map List.length = .ok 144) :=
  ⟨by decide, by decide, C2_padding_skipped_on_multiples K0 N0 (by decide) (by decide)⟩

/-! ## C3: round-subkey derivation format (corrected: the subkeys used
by encryption hash `masterKey ‖ "key_i"`; the big-endian-counter format
lives only in the separate NIST KDF, which `EncryptData` never calls) -/

/-- C3 counterexample: the first subkey `DeriveKeys` produces for the
all-zero key differs from the claimed
`SHA3-512(be32(1) ‖ key ‖ nonce)[0..16]`. -/
theorem C3_cex_subkey_format_differs :
    (DeriveKeys K0).map (fun ks => ks.getD 0 []) ≠ .ok (specSubkey K0 N0 [] 0) := by
  decide

/-- C3 amended: `DeriveKeysNISTSP80056A` (with counter 0) matches the
claimed counter‖key‖nonce‖secret format, while the `DeriveKeys` subkeys
actually used by `EncryptData` are `SHA3-512(key ‖ "key_i")[0..16]`. -/
theorem C3_subkey_derivation_formats :
    (∀ K N ss i, i < 11 →
        (DeriveKeysNISTSP80056A K N ss 0).getD i [] = specSubkey K N ss i) ∧
    (∀ K i, i < 11 → K.length = 32 →
        (DeriveKeys K).map (fun ks => ks.getD i []) =
          .ok ((sha3_512 (K ++ keyCtx i)).take 16)) := by
  constructor
  · intro K N ss i hi
    rw [DeriveKeysNISTSP80056A, getD_map_range _ 11 i _ hi]
    have hmod : (i + 1) % 4294967296 = i + 1 := Nat.mod_eq_of_lt (by omega)
    have hand : ∀ x : Nat, x &&& 0xFF = x % 256 := by
      intro x
      have := Nat.and_pow_two_sub_one_eq_mod x 8
      simpa using this
    simp [hmod, hand, specSubkey, be32]
  · intro K i hi hK
    simp [DeriveKeys, KeySize, hK, Except.map, List.getElem?_map, List.getElem?_range, hi,
      deriveKey]

/-- C3 witness: the amended statement instantiated at the all-zero key
and nonce, index 0. -/
theorem C3_subkey_derivation_formats_witness :
    (DeriveKeysNISTSP80056A K0 N0 [] 0).getD 0 [] = specSubkey K0 N0 [] 0 ∧
    (DeriveKeys K0).map (fun ks => ks.getD 0 []) =
      .ok ((sha3_512 (K0 ++ keyCtx 0)).take 16) :=
  ⟨C3_subkey_derivation_formats.1 K0 N0 [] 0 (by decide),
   C3_subkey_derivation_formats.2 K0 0 (by decide) (by decide)⟩

/-! ## C4: the authentication tag (corrected: HMAC-SHA3-512 over
`nonce ‖ ciphertext` is right, but the HMAC key is the 16-byte last
round subkey, not the 32-byte `SHA3-512("AUTH" ‖ key ‖ nonce)[0..32]`) -/

/-- C4 counterexample: for the all-zero key/nonce and empty plaintext,
the tag the frame carries is not the HMAC keyed with the claimed
`"AUTH"`-derived key. -/
theorem C4_cex_tag_key_differs :
    (EncryptData [] K0 N0).map (fun f => f.drop (f.length - 64)) ≠
      .ok (ComputeHMAC (specAuthKey K0 N0) (N0 ++ [])) := by
  decide

/-- C4 amended: every frame `EncryptData` emits is
`C ‖ N ‖ HMAC-SHA3-512(subkey_10, N ‖ C)` — the tag is an HMAC-SHA3-512
over nonce-then-ciphertext, but keyed with the last 16-byte round
subkey `SHA3-512(key ‖ "key_10")[0..16]`. -/
theorem C4_tag_keyed_with_last_subkey (P K N : List Nat)
    (hK : K.length = 32) (hN : N.length = 16) :
    ∃ C, EncryptData P K N = .ok (C ++ N ++ ComputeHMAC (deriveKey K 10) (N ++ C)) := by
  refine ⟨cbcEncrypt ((List.range 11).map (deriveKey K)) (DeriveIV N K)
    (P ++ List.replicate ((P.length + BlockSize - 1) / BlockSize * BlockSize - P.length)
      (((P.length + BlockSize - 1) / BlockSize * BlockSize - P.length) % 256)), ?_⟩
  simp [EncryptData, DeriveKeys, KeySize, NonceSize, hK, hN, Except.bind,
    List.getElem?_map, List.getElem?_range]

/-- C4 witness: the amended statement at the all-zero key and nonce. -/
theorem C4_tag_keyed_with_last_subkey_witness :
    ∃ C, EncryptData [] K0 N0 = .ok (C ++ N0 ++ ComputeHMAC (deriveKey K0 10) (N0 ++ C)) :=
  C4_tag_keyed_with_last_subkey [] K0 N0 (by decide) (by decide)

/-! ## C5: S-box bijectivity (code bug: the Go table literals are
partial, so Go zero-fills 240–248 entries per box; the SHA3-based byte
substitution of the block transform also collides) -/

/-- C5: the S-box tables are not bijective — value 0 appears 240 times
in box 1 and 248 times in box 2 — and the SHA3-based substitution used
by the block transform is not injective either (bytes 8 and 28 map to
the same output). -/
theorem C5_sbox_tables_not_bijective :
    (¬ ∀ box ∈ SBoxTable, ∀ v, v < 256 → box.count v = 1) ∧
    sboxTable1.count 0 = 240 ∧ sboxTable2.count 0 = 248 ∧
    SubstituteBlock [8] = SubstituteBlock [28] := by
  refine ⟨fun h => ?_, by decide, by decide, by decide⟩
  have h1 : sboxTable1.count 0 = 1 := h sboxTable1 (by simp [SBoxTable]) 0 (by omega)
  have h2 : sboxTable1.count 0 = 240 := by decide
  omega

/-! ## C7: frame validation on decrypt (corrected: only `|F| < 80` is
rejected; `|F| − 80 = 0` or a non-multiple of 64 is not an
invalid-frame rejection) -/

/-- C7 counterexample: an 80-byte frame (so `|F| − 80 = 0`, not a
positive multiple of 64) is not rejected as an invalid frame: tag
verification runs (and succeeds here), and decryption fails only later
with the empty-plaintext error. -/
theorem C7_cex_frame80_not_rejected :
    DecryptData frameEmptyOk K0 = .error .decryptedPlaintextEmpty ∧
    frameEmptyOk.length = 80 ∧
    GoErr.decryptedPlaintextEmpty ≠ GoErr.dataTooShort := by
  refine ⟨?_, ?_, by decide⟩
  · have h : frameEmptyOk = [] ++ N0 ++ ComputeHMAC (deriveKey K0 10) (N0 ++ []) := by
      simp [frameEmptyOk]
    rw [h, DecryptData_assembled [] N0 K0 (by decide) (by decide) (by simp)]
    simp [cbcDecrypt, stripPadding]
  · simp [frameEmptyOk, length_ComputeHMAC, N0]

/-- C7 amended: decryption rejects a frame before touching the tag only
when its length is below 80, with the too-short error. -/
theorem C7_short_frame_rejected (F K : List Nat)
    (hK : K.length = 32) (h : F.length < 80) :
    DecryptData F K = .error .dataTooShort := by
  simp only [DecryptData, KeySize, NonceSize, TagSize, hK, ne_eq, not_true_eq_false,
    if_false, reduceIte]
  rw [if_pos (by omega)]

/-- C7 witness: the empty frame with the all-zero key. -/
theorem C7_short_frame_rejected_witness :
    DecryptData [] K0 = .error .dataTooShort :=
  C7_short_frame_rejected [] K0 (by decide) (by decide)

/-! ## C9: secure erase discipline (code bug: the `"zero"` method does
zeroize, but `"random"`/`"overwrite"` only XOR hash patterns over the
buffer and never perform the final zero overwrite, so the released
bytes are not zero) -/

/-- C9: erasing with method `"zero"` leaves an all-zero buffer, but
erasing with method `"random"` (3 passes, concrete clock readings)
releases a buffer that is NOT all zero; `ZeroizeKey` does zeroize. -/
theorem C9_random_erase_not_zero :
    (∀ (m t : List Nat) (p : Nat),
        securelyEraseBytes "zero" p t m = List.replicate m.length 0) ∧
    securelyEraseBytes "random" 3 [0, 0, 0] (List.replicate 32 0) ≠
      List.replicate 32 0 ∧
    (∀ m : List Nat, ZeroizeKey m = List.replicate m.length 0) := by
  have hmap : ∀ m : List Nat, m.map (fun _ => (0 : Nat)) = List.replicate m.length 0 := by
    intro m
    induction m with
    | nil => rfl
    | cons a m ih => simp [ih, List.replicate_succ]
  refine ⟨fun m t p => ?_, by decide, fun m => hmap m⟩
  simp [securelyEraseBytes, hmap]

/-! ## C10: `ReversePermuteBlock` coincides with `PermuteBlock`

`PermuteBlock` scatters byte `i` to `(5i + 7) mod 64`; the "reverse"
function gathers, at position `k`, the byte at the first `j` with
`(5j + 7) mod 64 = k` — which is exactly the same map, since position
`k` of the scatter also receives the byte of that unique preimage `j`. -/

theorem foldl_set_length (g f : Nat → Nat) :
    ∀ (n : Nat) (init : List Nat),
      ((List.range n).foldl (fun acc m => acc.set (f m) (g m)) init).length
        = init.length := by
  intro n
  induction n with
  | zero => intro init; rfl
  | succ n ih =>
      intro init
      rw [List.range_succ, List.foldl_append]
      simp [ih]

/-- Scatter-by-`f` with `f` injective below `n`: position `f i` of the
result holds `g i`. -/
theorem foldl_set_getD (g f : Nat → Nat) :
    ∀ (n : Nat) (init : List Nat),
      (∀ a b, a < n → b < n → f a = f b → a = b) →
      (∀ a, a < n → f a < init.length) →
      ∀ i, i < n →
        ((List.range n).foldl (fun acc m => acc.set (f m) (g m)) init).getD (f i) 0
          = g i := by
  intro n
  induction n with
  | zero => intro init _ _ i hi; omega
  | succ n ih =>
      intro init hinj hlt i hi
      rw [List.range_succ, List.foldl_append]
      simp only [List.foldl_cons, List.foldl_nil]
      rcases Nat.lt_or_ge i n with h | h
      · have hne : f n ≠ f i := fun he => by
          have := hinj n i (by omega) (by omega) he
          omega
        rw [List.getD_eq_getElem?_getD, List.getElem?_set_ne hne,
          ← List.getD_eq_getElem?_getD]
        exact ih init (fun a b ha hb => hinj a b (by omega) (by omega))
          (fun a ha => hlt a (by omega)) i h
      · have hieq : i = n := by omega
        subst hieq
        rw [List.getD_eq_getElem?_getD,
          List.getElem?_set_eq_of_lt _ (by rw [foldl_set_length]; exact hlt i hi)]
        rfl

/-- The first (and only) preimage of `k` under `j ↦ (5j + 7) mod 64`. -/
theorem find_first_preimage :
    ∀ k, k < 64 → (List.range 64).find? (fun j => (j * 5 + 7) % 64 == k)
      = some ((13 * k + 37) % 64) := by
  decide

theorem scatter_map_inj :
    ∀ a, a < 64 → ∀ b, b < 64 → (a * 5 + 7) % 64 = (b * 5 + 7) % 64 → a = b := by
  decide

theorem scatter_map_inverse :
    ∀ k, k < 64 → (((13 * k + 37) % 64) * 5 + 7) % 64 = k ∧ (13 * k + 37) % 64 < 64 := by
  decide

theorem PermuteBlock_getD (b : List Nat) (hb : b.length = 64) (k : Nat) (hk : k < 64) :
    (PermuteBlock b).getD k 0 = b.getD ((13 * k + 37) % 64) 0 := by
  obtain ⟨hpre, hlt⟩ := scatter_map_inverse k hk
  rw [PermuteBlock, hb]
  have h := foldl_set_getD (fun m => b.getD m 0) (fun m => (m * 5 + 7) % 64) 64
    (List.replicate 64 0) (fun a b ha hb => scatter_map_inj a ha b hb)
    (fun a _ => by simp [Nat.mod_lt]) ((13 * k + 37) % 64) hlt
  simp only [hpre] at h
  exact h

theorem ReversePermuteBlock_getD (b : List Nat) (hb : b.length = 64)
    (k : Nat) (hk : k < 64) :
    (ReversePermuteBlock b).getD k 0 = b.getD ((13 * k + 37) % 64) 0 := by
  rw [ReversePermuteBlock, hb, getD_map_range _ 64 k _ hk, find_first_preimage k hk]

theorem length_PermuteBlock (b : List Nat) : (PermuteBlock b).length = b.length := by
  rw [PermuteBlock, foldl_set_length]
  simp

theorem length_ReversePermuteBlock (b : List Nat) :
    (ReversePermuteBlock b).length = b.length := by
  simp [ReversePermuteBlock]

/-- C10: on 64-byte blocks the "reverse" permutation is extensionally
the forward permutation — both place input byte `j` at output position
`(5j + 7) mod 64` — so block decryption re-applies the forward
permutation instead of its inverse. -/
theorem C10_reverse_permute_eq_permute (b : List Nat) (hb : b.length = 64) :
    ReversePermuteBlock b = PermuteBlock b := by
  have l1 : (ReversePermuteBlock b).length = 64 := by rw [length_ReversePermuteBlock, hb]
  have l2 : (PermuteBlock b).length = 64 := by rw [length_PermuteBlock, hb]
  have egetD : ∀ (l : List Nat) (k : Nat), l.length = 64 → k < 64 →
      l[k]? = some (l.getD k 0) := by
    intro l k hl hk
    rw [List.getD_eq_getElem?_getD, List.getElem?_eq_getElem (by omega)]
    rfl
  apply List.ext_getElem?
  intro k
  rcases Nat.lt_or_ge k 64 with hk | hk
  · rw [egetD _ k l1 hk, egetD _ k l2 hk,
      ReversePermuteBlock_getD b hb k hk, PermuteBlock_getD b hb k hk]
  · rw [List.getElem?_eq_none (by omega), List.getElem?_eq_none (by omega)]

/-- C10 witness: the block `0,1,…,63`. -/
theorem C10_reverse_permute_eq_permute_witness :
    (List.range 64).length = 64 ∧
      ReversePermuteBlock (List.range 64) = PermuteBlock (List.range 64) :=
  ⟨by decide, C10_reverse_permute_eq_permute (List.range 64) (by decide)⟩

/-! ## C6: padding failures versus MAC failures

To reach the padding-validation branch with a true tag, a concrete
one-block frame is decrypted.  Evaluating `DecryptBlock` directly would
hash every byte in every round, so the SHA3 S-box is first proved equal
to its precomputed table `sboxTab` and the table-based mirror functions
are used for the concrete run. -/

set_option maxHeartbeats 12000000

/-- `sboxTab` lists the SHA3-based S-box outputs for all 256 bytes,
checked 32 bytes at a time. -/
theorem sboxTab_chunk_0 : ∀ b, b < 32 → sboxByte b = sboxTab.getD b 0 := by
  decide

theorem sboxTab_chunk_1 : ∀ b, b < 32 → sboxByte (32 + b) = sboxTab.getD (32 + b) 0 := by
  decide

theorem sboxTab_chunk_2 : ∀ b, b < 32 → sboxByte (64 + b) = sboxTab.getD (64 + b) 0 := by
  decide

theorem sboxTab_chunk_3 : ∀ b, b < 32 → sboxByte (96 + b) = sboxTab.getD (96 + b) 0 := by
  decide

theorem sboxTab_chunk_4 : ∀ b, b < 32 → sboxByte (128 + b) = sboxTab.getD (128 + b) 0 := by
  decide

theorem sboxTab_chunk_5 : ∀ b, b < 32 → sboxByte (160 + b) = sboxTab.getD (160 + b) 0 := by
  decide

theorem sboxTab_chunk_6 : ∀ b, b < 32 → sboxByte (192 + b) = sboxTab.getD (192 + b) 0 := by
  decide

theorem sboxTab_chunk_7 : ∀ b, b < 32 → sboxByte (224 + b) = sboxTab.getD (224 + b) 0 := by
  decide

theorem sboxTab_bytes_lt : ∀ x ∈ sboxTab, x < 256 := by
  decide

theorem sboxByte_eq_table (b : Nat) (hb : b < 256) : sboxByte b = sboxByteT b := by
  rw [sboxByteT]
  rcases Nat.lt_or_ge b 32 with h | h
  · exact sboxTab_chunk_0 b h
  rcases Nat.lt_or_ge b 64 with h2 | h2
  · have hb32 : b = 32 + (b - 32) := by omega
    rw [hb32]; exact sboxTab_chunk_1 (b - 32) (by omega)
  rcases Nat.lt_or_ge b 96 with h3 | h3
  · have hb64 : b = 64 + (b - 64) := by omega
    rw [hb64]; exact sboxTab_chunk_2 (b - 64) (by omega)
  rcases Nat.lt_or_ge b 128 with h4 | h4
  · have hb96 : b = 96 + (b - 96) := by omega
    rw [hb96]; exact sboxTab_chunk_3 (b - 96) (by omega)
  rcases Nat.lt_or_ge b 160 with h5 | h5
  · have hb128 : b = 128 + (b - 128) := by omega
    rw [hb128]; exact sboxTab_chunk_4 (b - 128) (by omega)
  rcases Nat.lt_or_ge b 192 with h6 | h6
  · have hb160 : b = 160 + (b - 160) := by omega
    rw [hb160]; exact sboxTab_chunk_5 (b - 160) (by omega)
  rcases Nat.lt_or_ge b 224 with h7 | h7
  · have hb192 : b = 192 + (b - 192) := by omega
    rw [hb192]; exact sboxTab_chunk_6 (b - 192) (by omega)
  · have hb224 : b = 224 + (b - 224) := by omega
    rw [hb224]; exact sboxTab_chunk_7 (b - 224) (by omega)

theorem bytesLt_keysGetD (keys : List (List Nat)) (hk : ∀ k ∈ keys, bytesLt k) (i : Nat) :
    bytesLt (keys.getD i []) := by
  rcases Nat.lt_or_ge i keys.length with h | h
  · rw [List.getD_eq_getElem?_getD, List.getElem?_eq_getElem h]
    exact hk _ (List.getElem_mem h)
  · rw [List.getD_eq_getElem?_getD, List.getElem?_eq_none h]
    intro b hb
    simp at hb

theorem bytesLt_expandKey (rk : List Nat) (h : bytesLt rk) : bytesLt (expandKey rk) := by
  intro b hb
  simp only [expandKey, List.mem_map] at hb
  obtain ⟨i, -, rfl⟩ := hb
  exact getD_lt_of_forall _ _ h

theorem bytesLt_MixBlock (block key : List Nat) (hb : bytesLt block) (hk : bytesLt key) :
    bytesLt (MixBlock block key) := by
  intro b hmem
  simp only [MixBlock, List.mem_map] at hmem
  obtain ⟨i, -, rfl⟩ := hmem
  have h1 : block.getD i 0 < 2 ^ 8 := getD_lt_of_forall _ _ hb
  have h2 : key.getD (i % key.length) 0 < 2 ^ 8 := getD_lt_of_forall _ _ hk
  exact Nat.xor_lt_two_pow h1 h2

theorem bytesLt_RPermGather (block : List Nat) (h : bytesLt block) :
    bytesLt (RPermGather block) := by
  intro b hmem
  simp only [RPermGather, List.mem_map] at hmem
  obtain ⟨i, -, rfl⟩ := hmem
  exact getD_lt_of_forall _ _ h

theorem ReversePermuteBlock_eq_gather (b : List Nat) (hb : b.length = 64) :
    ReversePermuteBlock b = RPermGather b := by
  rw [ReversePermuteBlock, RPermGather, hb]
  apply List.map_congr_left
  intro k hk
  rw [List.mem_range] at hk
  rw [find_first_preimage k hk]

theorem length_MixBlock (block key : List Nat) :
    (MixBlock block key).length = block.length := by
  simp [MixBlock]

theorem length_SubstituteBlockT (block : List Nat) :
    (SubstituteBlockT block).length = block.length := by
  simp [SubstituteBlockT]

theorem bytesLt_SubstituteBlockT (block : List Nat) : bytesLt (SubstituteBlockT block) := by
  intro b hmem
  simp only [SubstituteBlockT, List.mem_map] at hmem
  obtain ⟨i, -, rfl⟩ := hmem
  exact getD_lt_of_forall _ _ sboxTab_bytes_lt

theorem SubstituteBlock_eq_T (block : List Nat) (h : bytesLt block) :
    SubstituteBlock block = SubstituteBlockT block := by
  simp only [SubstituteBlock, SubstituteBlockT]
  exact List.map_congr_left (fun b hb => sboxByte_eq_table b (h b hb))

theorem DecryptBlock_eq_T (ct : List Nat) (keys : List (List Nat))
    (hct : bytesLt ct) (hk : ∀ k ∈ keys, bytesLt k) :
    DecryptBlock ct keys = DecryptBlockT ct keys := by
  have hfold : ∀ (rs : List Nat) (p : List Nat), bytesLt p → p.length = 64 →
      rs.foldl (fun p round =>
        ReverseSubstituteBlock (ReversePermuteBlock
          (MixBlock p (expandKey (keys.getD (round % keys.length) []))))) p =
      rs.foldl (fun p round =>
        SubstituteBlockT (RPermGather
          (MixBlock p (expandKey (keys.getD (round % keys.length) []))))) p := by
    intro rs
    induction rs with
    | nil => intro p _ _; rfl
    | cons r rs ih =>
        intro p hp hlen
        have hmlen : (MixBlock p (expandKey (keys.getD (r % keys.length) []))).length = 64 := by
          rw [length_MixBlock, hlen]
        have hmid : bytesLt (RPermGather
            (MixBlock p (expandKey (keys.getD (r % keys.length) [])))) :=
          bytesLt_RPermGather _
            (bytesLt_MixBlock _ _ hp (bytesLt_expandKey _ (bytesLt_keysGetD keys hk _)))
        simp only [List.foldl_cons, ReverseSubstituteBlock,
          ReversePermuteBlock_eq_gather _ hmlen, SubstituteBlock_eq_T _ hmid]
        exact ih _ (bytesLt_SubstituteBlockT _)
          (by rw [length_SubstituteBlockT, RPermGather]; simp)
  have hstart : bytesLt ((List.range BlockSize).map (fun i =>
      ct.getD i 0 ^^^ (expandKey (keys.getD (keys.length - 1) [])).getD i 0)) := by
    intro b hmem
    simp only [List.mem_map] at hmem
    obtain ⟨i, -, rfl⟩ := hmem
    have h1 : ct.getD i 0 < 2 ^ 8 := getD_lt_of_forall _ _ hct
    have h2 : (expandKey (keys.getD (keys.length - 1) [])).getD i 0 < 2 ^ 8 :=
      getD_lt_of_forall _ _ (bytesLt_expandKey _ (bytesLt_keysGetD keys hk _))
    exact Nat.xor_lt_two_pow h1 h2
  rw [DecryptBlock, DecryptBlockT]
  exact hfold _ _ hstart (by simp [BlockSize])

theorem cbcDecrypt_eq_T (keys : List (List Nat)) (iv ct : List Nat)
    (hct : bytesLt ct) (hk : ∀ k ∈ keys, bytesLt k) :
    cbcDecrypt keys iv ct = cbcDecryptT keys iv ct := by
  rw [cbcDecrypt, cbcDecryptT]
  have hsteps : (fun (acc : List Nat × List Nat) bi =>
      let encryptedBlock := (ct.drop (bi * BlockSize)).take BlockSize
      let dec := DecryptBlock encryptedBlock keys
      let p := (List.range BlockSize).map (fun j => dec.getD j 0 ^^^ acc.2.getD j 0)
      (acc.1 ++ p, encryptedBlock)) =
      (fun (acc : List Nat × List Nat) bi =>
      let encryptedBlock := (ct.drop (bi * BlockSize)).take BlockSize
      let dec := DecryptBlockT encryptedBlock keys
      let p := (List.range BlockSize).map (fun j => dec.getD j 0 ^^^ acc.2.getD j 0)
      (acc.1 ++ p, encryptedBlock)) := by
    funext acc bi
    have hchunk : bytesLt ((ct.drop (bi * BlockSize)).take BlockSize) := fun b hb =>
      hct b (List.drop_subset _ _ (List.take_subset _ _ hb))
    simp only [DecryptBlock_eq_T _ _ hchunk hk]
  rw [hsteps]

theorem deriveKey_bytes_lt (K : List Nat) (i : Nat) : bytesLt (deriveKey K i) := by
  intro b hb
  exact sha3_512_bytes_lt _ b (List.take_subset _ _ hb)

theorem derived_keys_bytes_lt (K : List Nat) :
    ∀ k ∈ (List.range 11).map (deriveKey K), bytesLt k := by
  intro k hk
  simp only [List.mem_map] at hk
  obtain ⟨i, -, rfl⟩ := hk
  exact deriveKey_bytes_lt K i

/-- Decrypting the all-zero one-block frame with its true tag: the MAC
check passes and padding validation fails, with the padding byte 253
surfaced in the error. -/
theorem decrypt_frameC0_padding_failure :
    DecryptData frameC0 K0 = .error (.invalidPadding 253) := by
  have h : frameC0 = C0 ++ N0 ++ ComputeHMAC (deriveKey K0 10) (N0 ++ C0) := rfl
  rw [h, DecryptData_assembled C0 N0 K0 (by decide) (by decide) (by decide),
    cbcDecrypt_eq_T _ _ _ (by decide) (derived_keys_bytes_lt K0)]
  decide

/-- C6 counterexample: a frame failing padding validation yields
`invalid padding 253`, while a frame failing the MAC check yields the
distinct tag-verification error — the error reveals the cause. -/
theorem C6_cex_error_reveals_cause :
    DecryptData frameC0 K0 = .error (.invalidPadding 253) ∧
    DecryptData frameZ80 K0 = .error .authTagVerificationFailed ∧
    GoErr.invalidPadding 253 ≠ GoErr.authTagVerificationFailed :=
  ⟨decrypt_frameC0_padding_failure, by decide, by decide⟩

/-- C6 amended: padding-validation failures return errors (invalid
padding value / invalid padding bytes) that differ, as values, from the
MAC-failure error, and a padding failure is reachable — so the error
result does reveal which step failed. -/
theorem C6_padding_error_distinct_from_mac_error :
    (∀ n, GoErr.invalidPadding n ≠ GoErr.authTagVerificationFailed) ∧
    GoErr.invalidPaddingBytes ≠ GoErr.authTagVerificationFailed ∧
    DecryptData frameC0 K0 = .error (.invalidPadding 253) :=
  ⟨fun n h => GoErr.noConfusion h, by decide, decrypt_frameC0_padding_failure⟩

/-! ## C8: the key lifecycle state machine -/

theorem archStep_version {e e2 : KeyEntry} (h : archStep e e2) : e2.version = e.version := by
  rcases h with rfl | ⟨-, rfl⟩ <;> rfl

theorem archStep_refl (e : KeyEntry) : archStep e e := Or.inl rfl

theorem archStep_trans {a b c : KeyEntry} (h1 : archStep a b) (h2 : archStep b c) :
    archStep a c := by
  rcases h1 with rfl | ⟨ha, rfl⟩
  · exact h2
  · rcases h2 with rfl | ⟨hb, rfl⟩
    · exact Or.inr ⟨ha, rfl⟩
    · simp at hb

theorem forall₂_archStep_refl (h : List KeyEntry) : List.Forall₂ archStep h h := by
  induction h with
  | nil => exact List.Forall₂.nil
  | cons e t ih => exact List.Forall₂.cons (archStep_refl e) ih

theorem forall₂_archStep_trans {h1 h2 h3 : List KeyEntry}
    (a : List.Forall₂ archStep h1 h2) (b : List.Forall₂ archStep h2 h3) :
    List.Forall₂ archStep h1 h3 := by
  induction a generalizing h3 with
  | nil => cases b; exact List.Forall₂.nil
  | cons hab t ih =>
      cases b with
      | cons hbc t2 => exact List.Forall₂.cons (archStep_trans hab hbc) (ih t2)

theorem forall₂_mem_left {r : KeyEntry → KeyEntry → Prop} {l1 l2 : List KeyEntry}
    (h : List.Forall₂ r l1 l2) : ∀ a ∈ l1, ∃ b ∈ l2, r a b := by
  induction h with
  | nil => intro a ha; simp at ha
  | cons hr t ih =>
      intro a ha
      rcases List.mem_cons.mp ha with rfl | ha
      · exact ⟨_, List.mem_cons_self _ _, hr⟩
      · obtain ⟨b, hb, hrb⟩ := ih a ha
        exact ⟨b, List.mem_cons_of_mem _ hb, hrb⟩

theorem forall₂_mem_right {r : KeyEntry → KeyEntry → Prop} {l1 l2 : List KeyEntry}
    (h : List.Forall₂ r l1 l2) : ∀ b ∈ l2, ∃ a ∈ l1, r a b := by
  induction h with
  | nil => intro b hb; simp at hb
  | cons hr t ih =>
      intro b hb
      rcases List.mem_cons.mp hb with rfl | hb
      · exact ⟨_, List.mem_cons_self _ _, hr⟩
      · obtain ⟨a, ha, hra⟩ := ih b hb
        exact ⟨a, List.mem_cons_of_mem _ ha, hra⟩

theorem forall₂_archStep_versions {h1 h2 : List KeyEntry}
    (h : List.Forall₂ archStep h1 h2) :
    h2.map KeyEntry.version = h1.map KeyEntry.version := by
  induction h with
  | nil => rfl
  | cons hr _ ih => simp [archStep_version hr, ih]

theorem forall₂_archStep_activeCount {h1 h2 : List KeyEntry}
    (h : List.Forall₂ archStep h1 h2) : activeCount h2 = activeCount h1 := by
  induction h with
  | nil => rfl
  | cons hr _ ih =>
      have : ∀ {a b : KeyEntry}, archStep a b →
          (b.state == KeyState.active) = (a.state == KeyState.active) := by
        intro a b hab
        rcases hab with rfl | ⟨ha, rfl⟩
        · rfl
        · simp [ha]
      simp [activeCount, List.countP_cons, this hr]
      simpa [activeCount] using ih

/-- `setEntry` keeps the version list (the updates used here never
change an entry's version). -/
theorem setEntry_versions (h : List KeyEntry) (v : Nat) (f : KeyEntry → KeyEntry)
    (hf : ∀ e, (f e).version = e.version) :
    (setEntry h v f).map KeyEntry.version = h.map KeyEntry.version := by
  simp only [setEntry, List.map_map]
  apply List.map_congr_left
  intro e _
  by_cases hv : e.version = v <;> simp [hv, hf]

/-- Pointwise `archStep` between a list and its image under a map. -/
theorem forall₂_map_self {f : KeyEntry → KeyEntry} {l : List KeyEntry}
    (h : ∀ e ∈ l, archStep e (f e)) : List.Forall₂ archStep l (l.map f) := by
  induction l with
  | nil => exact List.Forall₂.nil
  | cons x t ih =>
      exact List.Forall₂.cons (h x (List.mem_cons_self _ _))
        (ih (fun e he => h e (List.mem_cons_of_mem _ he)))

/-- When versions are distinct and the entry found at `v` is Rotated,
the archival `setEntry` is an `archStep` transformation. -/
theorem setEntry_archive_forall₂ (h : List KeyEntry) (v : Nat) (e : KeyEntry)
    (hnodup : (h.map KeyEntry.version).Nodup)
    (hfind : lookupVersion h v = some e) (hrot : e.state = KeyState.rotated) :
    List.Forall₂ archStep h (setEntry h v
      (fun e' => { e' with state := KeyState.archived, material := [] })) := by
  have hmem : e ∈ h := List.mem_of_find?_eq_some hfind
  have hev : e.version = v := by
    have := List.find?_some hfind
    simpa using this
  rw [setEntry]
  apply forall₂_map_self
  intro x hx
  by_cases hv : x.version = v
  · have hx' : x = e :=
      List.inj_on_of_nodup_map hnodup hx hmem (by rw [hv, hev])
    exact Or.inr ⟨hx' ▸ hrot, by simp [hv]⟩
  · simp only [hv, if_false]
    exact archStep_refl x

theorem archiveStep_spec (acc : KeyManager × Nat) (v : Nat)
    (hnodup : (acc.1.history.map KeyEntry.version).Nodup) :
    List.Forall₂ archStep acc.1.history (archiveStep acc v).1.history ∧
    (archiveStep acc v).1.currentVersion = acc.1.currentVersion ∧
    (archiveStep acc v).1.activeVersion = acc.1.activeVersion ∧
    (archiveStep acc v).1.lastRotationTime = acc.1.lastRotationTime ∧
    (archiveStep acc v).1.policy = acc.1.policy := by
  rw [archiveStep]
  by_cases hb : acc.2 = 0
  · simp [hb, forall₂_archStep_refl, archStep_refl]
  · rw [if_neg hb]
    cases hlk : lookupVersion acc.1.history v with
    | none => simp [forall₂_archStep_refl, archStep_refl]
    | some e =>
        by_cases hrot : e.state = KeyState.rotated
        · simp only [hrot, if_pos]
          refine ⟨setEntry_archive_forall₂ _ _ _ hnodup hlk hrot, ?_, ?_, ?_, ?_⟩ <;> trivial
        · simp [hrot, forall₂_archStep_refl, archStep_refl]

theorem archiveFold_spec (ord : List Nat) :
    ∀ acc : KeyManager × Nat, (acc.1.history.map KeyEntry.version).Nodup →
      List.Forall₂ archStep acc.1.history (ord.foldl archiveStep acc).1.history ∧
      (ord.foldl archiveStep acc).1.currentVersion = acc.1.currentVersion ∧
      (ord.foldl archiveStep acc).1.activeVersion = acc.1.activeVersion ∧
      (ord.foldl archiveStep acc).1.lastRotationTime = acc.1.lastRotationTime ∧
      (ord.foldl archiveStep acc).1.policy = acc.1.policy := by
  induction ord with
  | nil =>
      intro acc _
      exact ⟨forall₂_archStep_refl _, rfl, rfl, rfl, rfl⟩
  | cons v ord ih =>
      intro acc hacc
      rw [List.foldl_cons]
      obtain ⟨hF, hc, ha, hl, hp⟩ := archiveStep_spec acc v hacc
      have hnd2 : ((archiveStep acc v).1.history.map KeyEntry.version).Nodup := by
        rw [forall₂_archStep_versions hF]
        exact hacc
      obtain ⟨hF2, hc2, ha2, hl2, hp2⟩ := ih (archiveStep acc v) hnd2
      exact ⟨forall₂_archStep_trans hF hF2, by rw [hc2, hc], by rw [ha2, ha],
        by rw [hl2, hl], by rw [hp2, hp]⟩

theorem archiveOldKeys_spec (km : KeyManager) (order : List Nat)
    (hnodup : (km.history.map KeyEntry.version).Nodup) :
    List.Forall₂ archStep km.history (archiveOldKeys km order).history ∧
    (archiveOldKeys km order).currentVersion = km.currentVersion ∧
    (archiveOldKeys km order).activeVersion = km.activeVersion ∧
    (archiveOldKeys km order).lastRotationTime = km.lastRotationTime ∧
    (archiveOldKeys km order).policy = km.policy := by
  rw [archiveOldKeys]
  by_cases hgt : activeRotatedCount km.history > km.policy.retentionCycles
  · simp only [hgt, if_pos]
    exact archiveFold_spec order (km, activeRotatedCount km.history -
      km.policy.retentionCycles) hnodup
  · simp [hgt, forall₂_archStep_refl, archStep_refl]

/-- `archiveOldKeys` does nothing when the count is within retention. -/
theorem archiveOldKeys_no_overflow (km : KeyManager) (order : List Nat)
    (h : activeRotatedCount km.history ≤ km.policy.retentionCycles) :
    archiveOldKeys km order = km := by
  rw [archiveOldKeys, if_neg (by omega)]

/-- What a successful `RotateKey` guarantees, starting from an
invariant-satisfying state. -/
theorem RotateKey_ok_spec (km km2 : KeyManager) (newKey : List Nat) (now : Nat)
    (order : List Nat) (hInv : KMInv km)
    (h : RotateKey km newKey now order = .ok km2) :
    KMInv km2 ∧
    km2.currentVersion = km.currentVersion + 1 ∧
    km2.policy = km.policy ∧
    (⟨km.currentVersion + 1, KeyState.active, newKey⟩ : KeyEntry) ∈ km2.history ∧
    (∀ e ∈ km.history, e.state = KeyState.active →
      ∃ e2 ∈ km2.history, e2.version = e.version ∧
        ((e2.state = KeyState.rotated ∧ e2.material = e.material) ∨
         (e2.state = KeyState.archived ∧ e2.material = []))) ∧
    (activeRotatedCount km.history + 1 ≤ km.policy.retentionCycles →
      ∀ e ∈ km.history, e.state = KeyState.active →
        ∃ e2 ∈ km2.history, e2.version = e.version ∧ e2.state = KeyState.rotated ∧
          e2.material = e.material) := by
  obtain ⟨hav, hvle, hact, hcnt, hnd⟩ := hInv
  rw [RotateKey] at h
  by_cases h1 : newKey.length ≠ KeySize
  · rw [if_pos h1] at h
    cases h
  · rw [if_neg h1] at h
    by_cases h2 : now - km.lastRotationTime < km.policy.minKeyAgeDays * 24
    · rw [if_pos h2] at h
      cases h
    · rw [if_neg h2, hav] at h
      -- name the marked history and the post-insert state
      set g : KeyEntry → KeyEntry := fun e => { e with state := KeyState.rotated } with hg
      set h1' : List KeyEntry := setEntry km.history km.currentVersion g with hh1
      set newE : KeyEntry :=
        ⟨km.currentVersion + 1, KeyState.active, newKey⟩ with hnewE
      set km1 : KeyManager :=
        { km with
          history := h1' ++ [newE]
          currentVersion := km.currentVersion + 1
          activeVersion := some (km.currentVersion + 1)
          lastRotationTime := now } with hkm1
      have hkm2 : km2 = archiveOldKeys km1 order := by
        cases h
        rfl
      -- facts about km1.history
      have hver1 : km1.history.map KeyEntry.version
          = km.history.map KeyEntry.version ++ [km.currentVersion + 1] := by
        rw [hkm1]
        simp only [List.map_append, hh1]
        rw [setEntry_versions km.history km.currentVersion g (fun e => rfl)]
        simp [hnewE]
      have hnd1 : (km1.history.map KeyEntry.version).Nodup := by
        rw [hver1]
        simp only [List.nodup_append, List.nodup_cons, List.not_mem_nil, not_false_iff,
          List.nodup_nil, and_true, true_and]
        constructor
        · exact hnd
        · intro a ha
          simp only [List.mem_map] at ha
          obtain ⟨e, he, rfl⟩ := ha
          have := hvle e he
          simp
          omega
      have hmark_not_active : ∀ x ∈ h1', (x.state == KeyState.active) = false := by
        intro x hx
        rw [hh1, setEntry] at hx
        simp only [List.mem_map] at hx
        obtain ⟨e, he, rfl⟩ := hx
        by_cases hv : e.version = km.currentVersion
        · simp [hv, hg]
        · have : ¬ e.state = KeyState.active := fun ha => hv (hact e he ha)
          simp [hv]
          simpa using this
      have hcnt1 : activeCount km1.history = 1 := by
        rw [hkm1]
        simp only [activeCount, List.countP_append]
        rw [List.countP_eq_zero.mpr (by intro x hx; simp [hmark_not_active x hx])]
        simp [hnewE]
      have hact1 : ∀ x ∈ km1.history, x.state = KeyState.active →
          x.version = km.currentVersion + 1 := by
        intro x hx hxa
        rw [hkm1] at hx
        rcases List.mem_append.mp hx with hx | hx
        · have := hmark_not_active x hx
          rw [hxa] at this
          simp at this
        · simp only [List.mem_singleton] at hx
          rw [hx, hnewE]
      have hvle1 : ∀ x ∈ km1.history, x.version ≤ km.currentVersion + 1 := by
        intro x hx
        rw [hkm1] at hx
        rcases List.mem_append.mp hx with hx | hx
        · rw [hh1, setEntry] at hx
          simp only [List.mem_map] at hx
          obtain ⟨e, he, rfl⟩ := hx
          have := hvle e he
          by_cases hv : e.version = km.currentVersion <;> simp [hv, hg] <;> omega
        · simp only [List.mem_singleton] at hx
          rw [hx, hnewE]
      -- the archival sweep
      obtain ⟨hF, hc, ha, hl, hp⟩ := archiveOldKeys_spec km1 order hnd1
      rw [← hkm2] at hF hc ha hl hp
      have hcur2 : km2.currentVersion = km.currentVersion + 1 := by rw [hc, hkm1]
      have hpol2 : km2.policy = km.policy := by rw [hp, hkm1]
      refine ⟨?_, hcur2, hpol2, ?_, ?_, ?_⟩
      · -- KMInv km2
        refine ⟨?_, ?_, ?_, ?_, ?_⟩
        · rw [ha, hcur2, hkm1]
        · intro e2 he2
          obtain ⟨e1, he1, hr⟩ := forall₂_mem_right hF e2 he2
          rw [archStep_version hr, hcur2]
          exact hvle1 e1 he1
        · intro e2 he2 ha2
          obtain ⟨e1, he1, hr⟩ := forall₂_mem_right hF e2 he2
          rcases hr with rfl | ⟨hrot1, rfl⟩
          · rw [hcur2]
            exact hact1 _ he1 ha2
          · simp at ha2
        · rw [forall₂_archStep_activeCount hF, hcnt1]
        · rw [forall₂_archStep_versions hF]
          exact hnd1
      · -- the new entry survives the sweep as Active
        have hin1 : newE ∈ km1.history := by
          rw [hkm1]
          exact List.mem_append_right _ (List.mem_singleton.mpr rfl)
        obtain ⟨e2, he2, hr⟩ := forall₂_mem_left hF newE hin1
        rcases hr with rfl | ⟨hrot1, -⟩
        · exact he2
        · rw [hnewE] at hrot1
          simp at hrot1
      · -- the fate of the old Active entry
        intro e he hea
        have hgev : g e = { e with state := KeyState.rotated } := rfl
        have hin1 : g e ∈ km1.history := by
          rw [hkm1, hh1, setEntry]
          apply List.mem_append_left
          have : (fun e' => if e'.version = km.currentVersion then g e' else e') e = g e := by
            simp [hact e he hea]
          rw [← this]
          exact List.mem_map_of_mem _ he
        obtain ⟨e2, he2, hr⟩ := forall₂_mem_left hF (g e) hin1
        rcases hr with rfl | ⟨-, rfl⟩
        · exact ⟨g e, he2, rfl, Or.inl ⟨rfl, rfl⟩⟩
        · exact ⟨_, he2, rfl, Or.inr ⟨rfl, rfl⟩⟩
      · -- within retention, the sweep does not run at all
        intro hle e he hea
        have hcntAR : activeRotatedCount km1.history
            = activeRotatedCount km.history + 1 := by
          rw [hkm1]
          simp only [activeRotatedCount, List.countP_append]
          have hpt : List.countP
              (fun e => e.state == KeyState.active || e.state == KeyState.rotated) h1'
              = List.countP
              (fun e => e.state == KeyState.active || e.state == KeyState.rotated)
              km.history := by
            rw [hh1, setEntry, List.countP_map]
            apply List.countP_congr
            intro x hx
            by_cases hv : x.version = km.currentVersion
            · -- the unique current-version entry is the Active one
              have hex : ∃ a ∈ km.history, a.state = KeyState.active := by
                by_contra hno
                push_neg at hno
                have : activeCount km.history = 0 := by
                  rw [activeCount, List.countP_eq_zero]
                  intro a ha
                  simpa using hno a ha
                omega
              obtain ⟨a, hamem, haact⟩ := hex
              have hax : x = a := List.inj_on_of_nodup_map hnd hx hamem
                (by rw [hv, hact a hamem haact])
              subst hax
              simp [hv, haact, hg, Function.comp]
            · simp [hv, Function.comp]
          rw [hpt, hnewE]
          simp
        have hstop : archiveOldKeys km1 order = km1 := by
          apply archiveOldKeys_no_overflow
          rw [hcntAR]
          exact hle
        rw [hkm2, hstop, hkm1]
        refine ⟨g e, List.mem_append_left _ ?_, rfl, rfl, rfl⟩
        rw [hh1, setEntry]
        have : (fun e' => if e'.version = km.currentVersion then g e' else e') e = g e := by
          simp [hact e he hea]
        rw [← this]
        exact List.mem_map_of_mem _ he

theorem KMInv_init (k : List Nat) (p : KeyRotationPolicy) (now : Nat) (km : KeyManager)
    (h : NewKeyManager k p now = .ok km) : KMInv km := by
  rw [NewKeyManager] at h
  by_cases h1 : k.length ≠ KeySize
  · rw [if_pos h1] at h
    cases h
  · rw [if_neg h1] at h
    cases h
    refine ⟨rfl, ?_, ?_, ?_, ?_⟩
    · intro e he
      simp at he
      simp [he]
    · intro e he _
      simp at he
      simp [he]
    · rfl
    · simp

theorem KMInv_step (km : KeyManager) (hInv : KMInv km) (op : KMOp) :
    KMInv (kmStep km op) := by
  cases op with
  | rotate k t o =>
      rw [kmStep]
      cases hrk : RotateKey km k t o with
      | ok km2 => exact (RotateKey_ok_spec km km2 k t o hInv hrk).1
      | error e => exact hInv

theorem KMInv_run (km : KeyManager) (hInv : KMInv km) (ops : List KMOp) :
    KMInv (kmRun km ops) := by
  induction ops generalizing km with
  | nil => exact hInv
  | cons op ops ih =>
      rw [kmRun, List.foldl_cons]
      exact ih _ (KMInv_step km hInv op)

/-- C8 counterexample: with the minimum legal retention of one cycle,
the very first rotation immediately archives the just-rotated version 1
and erases its material, so "Active → Rotated (material retained)" does
not describe the state rotation leaves behind. -/
theorem C8_cex_rotation_archives_old_key :
    ((NewKeyManager K0 polRet1 0).bind
        (fun km0 => RotateKey km0 K1 100 [1, 2])).map
      (fun km2 => lookupVersion km2.history 1) =
      .ok (some ⟨1, KeyState.archived, []⟩) ∧
    KeyState.archived ≠ KeyState.rotated := by
  constructor
  · decide
  · decide

/-- C8 amended: from initialization through any operation sequence,
exactly one version is Active and it is the current one; a successful
rotation increments the current version, installs it as the unique new
Active entry, and leaves the previous Active version either Rotated
with its material retained or — when the rotation's own archival sweep
runs because Active+Rotated exceeds retention — Archived with its
material erased; within the retention bound it is always Rotated with
material retained. -/
theorem C8_lifecycle_invariant (initialKey : List Nat) (policy : KeyRotationPolicy)
    (now : Nat) (ops : List KMOp) (km0 : KeyManager)
    (h0 : NewKeyManager initialKey policy now = .ok km0) :
    activeCount (kmRun km0 ops).history = 1 ∧
    (kmRun km0 ops).activeVersion = some (kmRun km0 ops).currentVersion ∧
    (∀ newKey t order km2, RotateKey (kmRun km0 ops) newKey t order = .ok km2 →
      km2.currentVersion = (kmRun km0 ops).currentVersion + 1 ∧
      activeCount km2.history = 1 ∧
      (⟨(kmRun km0 ops).currentVersion + 1, KeyState.active, newKey⟩ : KeyEntry)
        ∈ km2.history ∧
      (∀ e2 ∈ km2.history, e2.state = KeyState.active →
        e2.version = (kmRun km0 ops).currentVersion + 1) ∧
      (∀ e ∈ (kmRun km0 ops).history, e.state = KeyState.active →
        ∃ e2 ∈ km2.history, e2.version = e.version ∧
          ((e2.state = KeyState.rotated ∧ e2.material = e.material) ∨
           (e2.state = KeyState.archived ∧ e2.material = []))) ∧
      (activeRotatedCount (kmRun km0 ops).history + 1 ≤
          (kmRun km0 ops).policy.retentionCycles →
        ∀ e ∈ (kmRun km0 ops).history, e.state = KeyState.active →
          ∃ e2 ∈ km2.history, e2.version = e.version ∧
            e2.state = KeyState.rotated ∧ e2.material = e.material)) := by
  have hInv : KMInv (kmRun km0 ops) :=
    KMInv_run km0 (KMInv_init initialKey policy now km0 h0) ops
  obtain ⟨hav, hvle, hact, hcnt, hnd⟩ := hInv
  refine ⟨hcnt, hav, ?_⟩
  intro newKey t order km2 hrk
  obtain ⟨hInv2, hcur2, -, hnew, hold, hret⟩ :=
    RotateKey_ok_spec (kmRun km0 ops) km2 newKey t order
      ⟨hav, hvle, hact, hcnt, hnd⟩ hrk
  obtain ⟨-, -, hact2, hcnt2, -⟩ := hInv2
  refine ⟨hcur2, hcnt2, hnew, ?_, hold, hret⟩
  intro e2 he2 ha2
  rw [hact2 e2 he2 ha2, hcur2]

/-- C8 witness: a fresh manager with the default 3-cycle retention
policy, no operations, then one explicit successful rotation check. -/
theorem C8_lifecycle_invariant_witness :
    activeCount (kmRun
      { history := [⟨1, KeyState.active, K0⟩], currentVersion := 1,
        activeVersion := some 1, lastRotationTime := 0, policy := polRet3 }
      []).history = 1 ∧
    (kmRun
      { history := [⟨1, KeyState.active, K0⟩], currentVersion := 1,
        activeVersion := some 1, lastRotationTime := 0, policy := polRet3 }
      []).activeVersion = some (kmRun
      { history := [⟨1, KeyState.active, K0⟩], currentVersion := 1,
        activeVersion := some 1, lastRotationTime := 0, policy := polRet3 }
      []).currentVersion ∧
    (∀ newKey t order km2, RotateKey (kmRun
      { history := [⟨1, KeyState.active, K0⟩], currentVersion := 1,
        activeVersion := some 1, lastRotationTime := 0, policy := polRet3 }
      []) newKey t order = .ok km2 →
      km2.currentVersion = (kmRun
      { history := [⟨1, KeyState.active, K0⟩], currentVersion := 1,
        activeVersion := some 1, lastRotationTime := 0, policy := polRet3 }
      []).currentVersion + 1 ∧
      activeCount km2.history = 1 ∧
      (⟨(kmRun
      { history := [⟨1, KeyState.active, K0⟩], currentVersion := 1,
        activeVersion := some 1, lastRotationTime := 0, policy := polRet3 }
      []).currentVersion + 1, KeyState.active, newKey⟩ : KeyEntry) ∈ km2.history ∧
      (∀ e2 ∈ km2.history, e2.state = KeyState.active →
        e2.version = (kmRun
      { history := [⟨1, KeyState.active, K0⟩], currentVersion := 1,
        activeVersion := some 1, lastRotationTime := 0, policy := polRet3 }
      []).currentVersion + 1) ∧
      (∀ e ∈ (kmRun
      { history := [⟨1, KeyState.active, K0⟩], currentVersion := 1,
        activeVersion := some 1, lastRotationTime := 0, policy := polRet3 }
      []).history, e.state = KeyState.active →
        ∃ e2 ∈ km2.history, e2.version = e.version ∧
          ((e2.state = KeyState.rotated ∧ e2.material = e.material) ∨
           (e2.state = KeyState.archived ∧ e2.material = []))) ∧
      (activeRotatedCount (kmRun
      { history := [⟨1, KeyState.active, K0⟩], currentVersion := 1,
        activeVersion := some 1, lastRotationTime := 0, policy := polRet3 }
      []).history + 1 ≤ (kmRun
      { history := [⟨1, KeyState.active, K0⟩], currentVersion := 1,
        activeVersion := some 1, lastRotationTime := 0, policy := polRet3 }
      []).policy.retentionCycles →
        ∀ e ∈ (kmRun
      { history := [⟨1, KeyState.active, K0⟩], currentVersion := 1,
        activeVersion := some 1, lastRotationTime := 0, policy := polRet3 }
      []).history, e.state = KeyState.active →
          ∃ e2 ∈ km2.history, e2.version = e.version ∧
            e2.state = KeyState.rotated ∧ e2.material = e.material)) :=
  C8_lifecycle_invariant K0 polRet3 0 []
    { history := [⟨1, KeyState.active, K0⟩], currentVersion := 1,
      activeVersion := some 1, lastRotationTime := 0, policy := polRet3 }
    (by decide)

end EAMSA
